import Mathlib

/-!
Contact manager backend: pagination, entity mapping, bulk create, tag filter.

A shallow embedding of the Go sources

* `backend/models/contact.go`
* `backend/repository/contact_repository.go`
* `backend/service/contact_service.go`
* `backend/handlers/rest_handlers.go`

Go `int` is the 64-bit two's complement integer of the targets the SQLite driver
builds for; it is embedded as `Int` with every arithmetic result reduced by
`wrapInt`.  Go strings are embedded as `String`: the development covers the Go
strings that are valid UTF-8, as every string bound from a JSON request body
is; a Go string with a byte sequence that is not UTF-8 (a query parameter can
carry one) has no counterpart here.  Pointers to strings are `Option String`,
slices that may be `nil` are `Option (List _)`.
The database is a list of rows in insertion order.
-/

namespace ContactManager

/-! ## Go integers -/

/-- Largest value of a Go `int` (64 bit). -/
def maxInt : Int := 9223372036854775807

/-- Smallest value of a Go `int` (64 bit). -/
def minInt : Int := -9223372036854775808

/-- Two's complement reduction of a mathematical integer to a Go `int`. -/
def wrapInt (x : Int) : Int :=
  (x + 9223372036854775808) % 18446744073709551616 - 9223372036854775808

/-- Go `a + b` on `int`. -/
def goAdd (a b : Int) : Int := wrapInt (a + b)

/-- Go `a - b` on `int`. -/
def goSub (a b : Int) : Int := wrapInt (a - b)

/-- Go `a * b` on `int`. -/
def goMul (a b : Int) : Int := wrapInt (a * b)

/-- Run-time panics of the Go runtime that the modelled code can reach. -/
inductive Panic where
  | integerDivideByZero
  | indexOutOfRange
  deriving DecidableEq, Repr

/-- Go `a / b` on `int`: truncated division, a run-time panic when `b` is zero. -/
def goDiv (a b : Int) : Except Panic Int :=
  if b = 0 then .error .integerDivideByZero else .ok (wrapInt (Int.tdiv a b))

/-! ## models/contact.go -/

/-- The struct `models.Address`. -/
structure Address where
  Street : Option String
  City : Option String
  State : Option String
  PostalCode : Option String
  Country : Option String
  deriving DecidableEq, Repr

/-- The struct `models.Contact`; times are instants on an integer clock. -/
structure Contact where
  ID : String
  FirstName : String
  LastName : String
  Email : String
  PhoneNumber : Option String
  Address : Option Address
  Company : Option String
  JobTitle : Option String
  Tags : Option (List String)
  Notes : Option String
  CreatedAt : Int
  UpdatedAt : Int
  deriving DecidableEq, Repr

/-- The struct `models.ContactInput`. -/
structure ContactInput where
  FirstName : String
  LastName : String
  Email : String
  PhoneNumber : Option String
  Address : Option Address
  Company : Option String
  JobTitle : Option String
  Tags : Option (List String)
  Notes : Option String
  deriving DecidableEq, Repr

/-- The struct `models.ListOptions`. -/
structure ListOptions where
  Page : Int
  Limit : Int
  Search : String
  Tag : String
  deriving DecidableEq, Repr

/-! ## The table `contacts` -/

/-- One row of the table created by `CreateTable`.  The `NOT NULL` columns are
strings; the nullable text columns are options.  The column `tags` is declared
nullable, but `Create` and `Update`, the only writers, always bind a Go string
to it, so a stored row carries a string there. -/
structure Row where
  id : String
  first_name : String
  last_name : String
  email : String
  phone_number : Option String
  address_street : Option String
  address_city : Option String
  address_state : Option String
  address_postal_code : Option String
  address_country : Option String
  company : Option String
  job_title : Option String
  tags : String
  notes : Option String
  created_at : Int
  updated_at : Int
  deriving DecidableEq, Repr

/-- The database handle: the rows of `contacts`, oldest insertion first. -/
structure DB where
  rows : List Row
  deriving DecidableEq, Repr

/-- Errors returned by the `database/sql` layer that the handlers tell apart. -/
inductive GoError where
  | errNoRows
  | uniqueConstraintFailed (column : String)
  deriving DecidableEq, Repr

/-! ## SQLite `LIKE` -/

/-- The `%` wildcard of `LIKE`: the rest of the pattern matches some suffix. -/
def likeStar (rest : List Char → Bool) : List Char → Bool
  | [] => rest []
  | c :: t => rest (c :: t) || likeStar rest t

/-- The text the `LIKE` function reads from a bound string: the characters
before the first NUL. -/
def cString : List Char → List Char
  | [] => []
  | c :: cs => if c = Char.ofNat 0 then [] else c :: cString cs

/-- The code point SQLite's UTF-8 reader returns for a character: U+FFFE and
U+FFFF are read as U+FFFD. -/
def sqliteRead (c : Char) : Char :=
  if c = Char.ofNat 0xFFFE ∨ c = Char.ofNat 0xFFFF then Char.ofNat 0xFFFD else c

/-- The comparison of a pattern character with a text character: the code
points read are equal, or both are ASCII and equal up to letter case. -/
def likeCharEq (p c : Char) : Bool :=
  sqliteRead p = sqliteRead c ||
    (p.toLower = c.toLower && p.toNat < 0x80 && c.toNat < 0x80)

/-- SQLite's `patternCompare` for `LIKE` on character lists (pattern first): `%`
matches any run of characters, `_` any one character, every other character
matches by `likeCharEq`; there is no escape character. -/
def likeChars : List Char → List Char → Bool
  | [], t => t.isEmpty
  | p :: ps, t =>
    if p = '%' then likeStar (likeChars ps) t
    else
      match t with
      | [] => false
      | c :: t' => (p = '_' || likeCharEq p c) && likeChars ps t'

/-- The default of `SQLITE_MAX_LIKE_PATTERN_LENGTH`, in bytes. -/
def maxLikePatternLength : Nat := 50000

/-- SQLite `text LIKE pattern` evaluates to true.  A pattern of more than
`maxLikePatternLength` bytes makes the statement fail with
`LIKE or GLOB pattern too complex`, and no row is matched; otherwise pattern and
text are compared up to their first NUL. -/
def sqlLike (text pattern : String) : Bool :=
  if pattern.utf8ByteSize > maxLikePatternLength then false
  else likeChars (cString pattern.toList) (cString text.toList)

/-! ## repository/contact_repository.go: `List` -/

/-- The search predicate appended at lines 172-176. -/
def searchPredicate (search : String) (r : Row) : Bool :=
  let searchTerm := "%" ++ search ++ "%"
  sqlLike r.first_name searchTerm || sqlLike r.last_name searchTerm ||
    sqlLike r.email searchTerm

/-- The tag predicate appended at lines 178-181, on the stored tags text. -/
def tagPredicate (tag : String) (tagsColumn : String) : Bool :=
  sqlLike tagsColumn ("%\"" ++ tag ++ "\"%")

/-- The `WHERE` clause built by `List`. -/
def whereClause (opts : ListOptions) (r : Row) : Bool :=
  let w := true
  let w := if opts.Search ≠ "" then w && searchPredicate opts.Search r else w
  let w := if opts.Tag ≠ "" then w && tagPredicate opts.Tag r.tags else w
  w

/-- The rows selected by `WHERE ... ORDER BY created_at DESC`. -/
def matchingRows (db : DB) (opts : ListOptions) : List Row :=
  (db.rows.filter (whereClause opts)).insertionSort
    (fun a b => b.created_at ≤ a.created_at)

/-- SQLite `LIMIT limit OFFSET offset`: a negative offset counts as zero, a
negative limit as no bound. -/
def sqlLimitOffset (rows : List Row) (limit offset : Int) : List Row :=
  let skipped := rows.drop (if offset < 0 then 0 else offset.toNat)
  if limit < 0 then skipped else skipped.take limit.toNat

/-! ## `encoding/json` on `[]string`

`json.Marshal` as the standard library encodes a slice of strings (HTML escaping
on, as `Marshal` always has it), and `json.Unmarshal` into a `[]string` that is
`nil` before the call, with the error dropped as the repository drops it.  A
text that is not valid JSON leaves the slice `nil`, as do `null` and every valid
text that is not an array; in an array every string literal gives its string and
every other element the empty string.  Strings are valid UTF-8 here, so the
encoder's replacement of other bytes by U+FFFD does not arise. -/

/-- The digit table `hex` of the encoder. -/
def hexDigit (n : Nat) : Char :=
  "0123456789abcdef".toList.getD n '0'

/-- Membership in the encoder's table `htmlSafeSet`: the ASCII characters that
are written as they are. -/
def htmlSafe (c : Char) : Bool :=
  0x20 ≤ c.toNat && c.toNat < 0x80 &&
    !(c = '"' || c = '\\' || c = '<' || c = '>' || c = '&')

/-- The encoder's output for one character of a string, as Go 1.22 and later
write it; earlier releases write the backspace and the form feed as `\u0008`
and `\u000c`, which the decoder reads back alike. -/
def escapeChar (c : Char) : List Char :=
  if c.toNat < 0x80 then
    if htmlSafe c then [c]
    else if c = '\\' ∨ c = '"' then ['\\', c]
    else if c = '\x08' then ['\\', 'b']
    else if c = '\x0c' then ['\\', 'f']
    else if c = '\n' then ['\\', 'n']
    else if c = '\r' then ['\\', 'r']
    else if c = '\t' then ['\\', 't']
    else ['\\', 'u', '0', '0', hexDigit (c.toNat / 16), hexDigit (c.toNat % 16)]
  else if c = Char.ofNat 0x2028 ∨ c = Char.ofNat 0x2029 then
    ['\\', 'u', '2', '0', '2', hexDigit (c.toNat % 16)]
  else [c]

/-- The characters between the quotes of an encoded string. -/
def escapeChars : List Char → List Char
  | [] => []
  | c :: cs => escapeChar c ++ escapeChars cs

/-- The encoder's output for a string: quote, escaped characters, quote. -/
def quoteChars (s : String) : List Char :=
  '"' :: (escapeChars s.toList ++ ['"'])

/-- The elements of an encoded array after the first one, and the bracket. -/
def encodeTail : List String → List Char
  | [] => [']']
  | s :: rest => ',' :: (quoteChars s ++ encodeTail rest)

/-- The encoder's output for a non-nil slice of strings. -/
def encodeArray : List String → List Char
  | [] => ['[', ']']
  | s :: rest => '[' :: (quoteChars s ++ encodeTail rest)

/-- The call `json.Marshal(tags)` for `tags []string` of valid UTF-8 strings,
as a string; a nil slice encodes as `null`. -/
def marshalTags : Option (List String) → String
  | none => "null"
  | some ts => String.mk (encodeArray ts)

/-- Value of a hexadecimal digit, either case. -/
def hexVal (c : Char) : Option Nat :=
  if '0' ≤ c ∧ c ≤ '9' then some (c.toNat - 48)
  else if 'a' ≤ c ∧ c ≤ 'f' then some (c.toNat - 87)
  else if 'A' ≤ c ∧ c ≤ 'F' then some (c.toNat - 55)
  else none

/-- The decoder's `getu4` on the four characters after `\u`. -/
def hex4 (a b c d : Char) : Option Nat :=
  match hexVal a, hexVal b, hexVal c, hexVal d with
  | some x, some y, some z, some w => some (((x * 16 + y) * 16 + z) * 16 + w)
  | _, _, _, _ => none

/-- The Unicode replacement character. -/
def replacementChar : Char := Char.ofNat 0xFFFD

/-- The rune for a `\u` escape whose value is a UTF-16 surrogate: with a
following low-surrogate escape it is the combined code point and both escapes
are consumed, otherwise it is the replacement character. -/
def decodeSurrogate (rr : Nat) (rest : List Char) : Char × List Char :=
  match rest with
  | '\\' :: 'u' :: a :: b :: c :: d :: rest' =>
    match hex4 a b c d with
    | some rr1 =>
      if 0xD800 ≤ rr ∧ rr < 0xDC00 ∧ 0xDC00 ≤ rr1 ∧ rr1 < 0xE000 then
        (Char.ofNat ((rr - 0xD800) * 1024 + (rr1 - 0xDC00) + 0x10000), rest')
      else (replacementChar, rest)
    | none => (replacementChar, rest)
  | _ => (replacementChar, rest)

/-- One escape sequence, read after its backslash: the character it stands for
and the remaining input. -/
def unescape : List Char → Option (Char × List Char)
  | [] => none
  | c :: rest =>
    if c = '"' ∨ c = '\\' ∨ c = '/' then some (c, rest)
    else if c = 'b' then some ('\x08', rest)
    else if c = 'f' then some ('\x0c', rest)
    else if c = 'n' then some ('\n', rest)
    else if c = 'r' then some ('\r', rest)
    else if c = 't' then some ('\t', rest)
    else if c = 'u' then
      match rest with
      | h1 :: h2 :: h3 :: h4 :: rest' =>
        match hex4 h1 h2 h3 h4 with
        | some rr =>
          if 0xD800 ≤ rr ∧ rr < 0xE000 then some (decodeSurrogate rr rest')
          else some (Char.ofNat rr, rest')
        | none => none
      | _ => none
    else none

/-- A string literal read after its opening quote: the decoded characters and
the input after the closing quote.  The fuel bounds the number of steps; each
step consumes input, so the length of the input plus one is always enough. -/
def parseStringBody : Nat → List Char → Option (List Char × List Char)
  | 0, _ => none
  | _ + 1, [] => none
  | fuel + 1, c :: rest =>
    if c = '"' then some ([], rest)
    else if c = '\\' then
      match unescape rest with
      | none => none
      | some (d, rest') =>
        match parseStringBody fuel rest' with
        | none => none
        | some (s, r) => some (d :: s, r)
    else if c.toNat < 0x20 then none
    else
      match parseStringBody fuel rest with
      | none => none
      | some (s, r) => some (c :: s, r)

/-- JSON white space. -/
def isSpace (c : Char) : Bool :=
  c = ' ' || c = '\t' || c = '\r' || c = '\n'

/-- Skip JSON white space. -/
def skipSpace : List Char → List Char
  | [] => []
  | c :: rest => if isSpace c then skipSpace rest else c :: rest

/-- Skip a run of decimal digits. -/
def skipDigits : List Char → List Char
  | [] => []
  | c :: rest => if c.isDigit then skipDigits rest else c :: rest

/-- The exponent of a number after its `e`: an optional sign and at least one
digit. -/
def scanExponent : List Char → Option (List Char)
  | [] => none
  | c :: rest =>
    if c = '+' ∨ c = '-' then
      match rest with
      | [] => none
      | d :: rest' => if d.isDigit then some (skipDigits rest') else none
    else if c.isDigit then some (skipDigits rest)
    else none

/-- The optional exponent of a number. -/
def scanExponentOpt : List Char → Option (List Char)
  | [] => some []
  | c :: rest => if c = 'e' ∨ c = 'E' then scanExponent rest else some (c :: rest)

/-- The part of a number after its integer digits: an optional fraction with at
least one digit, then an optional exponent. -/
def scanNumberTail : List Char → Option (List Char)
  | [] => some []
  | c :: rest =>
    if c = '.' then
      match rest with
      | [] => none
      | d :: rest' => if d.isDigit then scanExponentOpt (skipDigits rest') else none
    else scanExponentOpt (c :: rest)

/-- The part of a number after its optional minus sign: a single `0` or a run
of digits that starts with a non-zero digit, then the tail. -/
def scanInteger : List Char → Option (List Char)
  | [] => none
  | c :: rest =>
    if c = '0' then scanNumberTail rest
    else if c.isDigit then scanNumberTail (skipDigits rest)
    else none

/-- A JSON number: the input after it. -/
def scanNumber : List Char → Option (List Char)
  | [] => none
  | c :: rest => if c = '-' then scanInteger rest else scanInteger (c :: rest)

/-- The input after the given literal characters. -/
def dropLiteral : List Char → List Char → Option (List Char)
  | [], cs => some cs
  | _ :: _, [] => none
  | l :: ls, c :: cs => if l = c then dropLiteral ls cs else none

/-- An object key with its colon: the input after the colon. -/
def scanKey : List Char → Option (List Char)
  | [] => none
  | c :: rest =>
    if c = '"' then
      match parseStringBody (rest.length + 1) rest with
      | none => none
      | some (_, r) =>
        match skipSpace r with
        | [] => none
        | d :: r' => if d = ':' then some r' else none
    else none

/-- The open containers of the scanner. -/
inductive Container where
  | array
  | object
  deriving DecidableEq, Repr

/-- The scanner's `maxNestingDepth`. -/
def maxNestingDepth : Nat := 10000

/-- The syntax check of one JSON value: the input after the value, `none` for a
syntax error.  With `atValue` the scanner stands before a value, otherwise after
one; `stack` holds the containers opened inside the value and `depth` counts the
containers open around it.  Every step consumes input, so the length of the
input plus two is always enough fuel. -/
def scanJSON : Nat → Bool → List Container → Nat → List Char → Option (List Char)
  | 0, _, _, _, _ => none
  | fuel + 1, true, stack, depth, input =>
    match skipSpace input with
    | [] => none
    | c :: rest =>
      if c = '"' then
        match parseStringBody (rest.length + 1) rest with
        | none => none
        | some (_, r) => scanJSON fuel false stack depth r
      else if c = '[' then
        if stack.length + depth + 1 > maxNestingDepth then none
        else
          match skipSpace rest with
          | [] => none
          | d :: r =>
            if d = ']' then scanJSON fuel false stack depth r
            else scanJSON fuel true (Container.array :: stack) depth (d :: r)
      else if c = '{' then
        if stack.length + depth + 1 > maxNestingDepth then none
        else
          match skipSpace rest with
          | [] => none
          | d :: r =>
            if d = '}' then scanJSON fuel false stack depth r
            else
              match scanKey (d :: r) with
              | none => none
              | some r' => scanJSON fuel true (Container.object :: stack) depth r'
      else if c = 't' then
        match dropLiteral ['r', 'u', 'e'] rest with
        | none => none
        | some r => scanJSON fuel false stack depth r
      else if c = 'f' then
        match dropLiteral ['a', 'l', 's', 'e'] rest with
        | none => none
        | some r => scanJSON fuel false stack depth r
      else if c = 'n' then
        match dropLiteral ['u', 'l', 'l'] rest with
        | none => none
        | some r => scanJSON fuel false stack depth r
      else if c = '-' ∨ c.isDigit then
        match scanNumber (c :: rest) with
        | none => none
        | some r => scanJSON fuel false stack depth r
      else none
  | fuel + 1, false, stack, depth, input =>
    match stack with
    | [] => some input
    | Container.array :: stack' =>
      match skipSpace input with
      | [] => none
      | c :: rest =>
        if c = ',' then scanJSON fuel true stack depth rest
        else if c = ']' then scanJSON fuel false stack' depth rest
        else none
    | Container.object :: stack' =>
      match skipSpace input with
      | [] => none
      | c :: rest =>
        if c = ',' then
          match scanKey (skipSpace rest) with
          | none => none
          | some r => scanJSON fuel true stack depth r
        else if c = '}' then scanJSON fuel false stack' depth rest
        else none

/-- One element of the array, read at its first character: a string literal
gives its string; any other value is a type error for a string element, which
stays empty. -/
def parseElement : List Char → Option (String × List Char)
  | [] => none
  | c :: rest =>
    if c = '"' then
      match parseStringBody (rest.length + 1) rest with
      | none => none
      | some (s, r) => some (String.mk s, r)
    else
      match scanJSON (rest.length + 3) true [] 1 (c :: rest) with
      | none => none
      | some r => some ("", r)

/-- The elements of an array, read at the first character of an element, up to
and including the closing bracket. -/
def parseElements : Nat → List Char → Option (List String × List Char)
  | 0, _ => none
  | fuel + 1, cs =>
    match parseElement cs with
    | none => none
    | some (e, r) =>
      match skipSpace r with
      | [] => none
      | d :: r' =>
        if d = ']' then some ([e], r')
        else if d = ',' then
          match parseElements fuel (skipSpace r') with
          | none => none
          | some (es, r'') => some (e :: es, r'')
        else none

/-- A whole JSON text decoded into a nil slice of strings: `none` (the slice
stays nil) for `null`, for a text that is not an array and for a text with a
syntax error; the list of the elements for an array. -/
def parseTags (input : List Char) : Option (List String) :=
  match skipSpace input with
  | 'n' :: 'u' :: 'l' :: 'l' :: _ =>
    none
  | '[' :: rest =>
    match skipSpace rest with
    | [] => none
    | c :: rest' =>
      if c = ']' then
        (if skipSpace rest' = [] then some [] else none)
      else
        match parseElements (rest.length + 1) (c :: rest') with
        | none => none
        | some (ss, r) => if skipSpace r = [] then some ss else none
  | _ => none

/-- The call `json.Unmarshal([]byte(tagsJSON), &contact.Tags)` with
`contact.Tags` nil before the call and the error dropped. -/
def unmarshalTags (tagsJSON : String) : Option (List String) :=
  parseTags tagsJSON.toList

/-! ## repository/contact_repository.go -/

namespace ContactRepository

/-- The values `Create` binds to the `INSERT` statement (lines 95-108), for the
id and the time drawn at lines 52-53. -/
def insertRow (id : String) (now : Int) (input : ContactInput) : Row :=
  let tagsJSON := marshalTags input.Tags
  let (addressStreet, addressCity, addressState, addressPostalCode, addressCountry) :=
    match input.Address with
    | some a => (a.Street, a.City, a.State, a.PostalCode, a.Country)
    | none => (none, none, none, none, none)
  { id := id, first_name := input.FirstName, last_name := input.LastName,
    email := input.Email, phone_number := input.PhoneNumber,
    address_street := addressStreet, address_city := addressCity,
    address_state := addressState, address_postal_code := addressPostalCode,
    address_country := addressCountry, company := input.Company,
    job_title := input.JobTitle, tags := tagsJSON, notes := input.Notes,
    created_at := now, updated_at := now }

/-- The contact `Create` builds and returns on success (lines 58-85). -/
def newContact (id : String) (now : Int) (input : ContactInput) : Contact :=
  let contact : Contact :=
    { ID := id, FirstName := input.FirstName, LastName := input.LastName,
      Email := input.Email, PhoneNumber := none, Address := none, Company := none,
      JobTitle := none, Tags := none, Notes := none, CreatedAt := now, UpdatedAt := now }
  let contact := if input.PhoneNumber ≠ none then
    { contact with PhoneNumber := input.PhoneNumber } else contact
  let contact := if input.Company ≠ none then
    { contact with Company := input.Company } else contact
  let contact := if input.JobTitle ≠ none then
    { contact with JobTitle := input.JobTitle } else contact
  let contact := if input.Notes ≠ none then
    { contact with Notes := input.Notes } else contact
  let contact := if input.Tags ≠ none then
    { contact with Tags := input.Tags } else contact
  let contact := if input.Address ≠ none then
    { contact with Address := input.Address } else contact
  contact

/-- Method `Create`, for the id and the time drawn at lines 52-53.  The `INSERT`
fails on the primary key `id` and on the `UNIQUE` column `email`; SQLite's limit
on the size of a value is not modelled. -/
def Create (db : DB) (id : String) (now : Int) (input : ContactInput) :
    DB × Except GoError Contact :=
  if db.rows.any (fun r => r.id = id) then
    (db, .error (.uniqueConstraintFailed "contacts.id"))
  else if db.rows.any (fun r => r.email = input.Email) then
    (db, .error (.uniqueConstraintFailed "contacts.email"))
  else
    (⟨db.rows ++ [insertRow id now input]⟩, .ok (newContact id now input))

/-- The decoding of one scanned row.  `GetByID` (lines 125-162) and the loop of
`List` (lines 211-247) run the same statements: scan, tags, address. -/
def scanContact (r : Row) : Contact :=
  let tagsJSON := r.tags
  let (addressStreet, addressCity, addressState, addressPostalCode, addressCountry) :=
    (r.address_street, r.address_city, r.address_state, r.address_postal_code,
      r.address_country)
  let contact : Contact :=
    { ID := r.id, FirstName := r.first_name, LastName := r.last_name, Email := r.email,
      PhoneNumber := r.phone_number, Address := none, Company := r.company,
      JobTitle := r.job_title, Tags := none, Notes := r.notes,
      CreatedAt := r.created_at, UpdatedAt := r.updated_at }
  let contact := if tagsJSON ≠ "" then
    { contact with Tags := unmarshalTags tagsJSON } else contact
  let contact :=
    if addressStreet.isSome || addressCity.isSome || addressState.isSome ||
        addressPostalCode.isSome || addressCountry.isSome then
      let address : Address :=
        { Street := none, City := none, State := none, PostalCode := none, Country := none }
      let address := if addressStreet.isSome then
        { address with Street := addressStreet } else address
      let address := if addressCity.isSome then
        { address with City := addressCity } else address
      let address := if addressState.isSome then
        { address with State := addressState } else address
      let address := if addressPostalCode.isSome then
        { address with PostalCode := addressPostalCode } else address
      let address := if addressCountry.isSome then
        { address with Country := addressCountry } else address
      { contact with Address := some address }
    else contact
  contact

/-- Method `GetByID`: the row with the id, decoded, or `sql.ErrNoRows`. -/
def GetByID (db : DB) (id : String) : Except GoError Contact :=
  match db.rows.find? (fun r => r.id = id) with
  | none => .error .errNoRows
  | some r => .ok (scanContact r)

/-- Method `List`: the decoded page and the count of matching rows, for
statements that run; the error result of a failing statement is not modelled. -/
def List (db : DB) (opts : ListOptions) : List Contact × Int :=
  let total : Int := (matchingRows db opts).length
  let offset := goMul (goSub opts.Page 1) opts.Limit
  let contacts := (sqlLimitOffset (matchingRows db opts) opts.Limit offset).map scanContact
  (contacts, total)

/-- The values `Update` binds to the `UPDATE` statement (lines 257-280), written
over the row `old` that has the id. -/
def updateRow (old : Row) (now : Int) (input : ContactInput) : Row :=
  let tagsJSON := marshalTags input.Tags
  let (addressStreet, addressCity, addressState, addressPostalCode, addressCountry) :=
    match input.Address with
    | some a => (a.Street, a.City, a.State, a.PostalCode, a.Country)
    | none => (none, none, none, none, none)
  { old with
    first_name := input.FirstName, last_name := input.LastName, email := input.Email,
    phone_number := input.PhoneNumber, address_street := addressStreet,
    address_city := addressCity, address_state := addressState,
    address_postal_code := addressPostalCode, address_country := addressCountry,
    company := input.Company, job_title := input.JobTitle, tags := tagsJSON,
    notes := input.Notes, updated_at := now }

/-- Method `Update`, for the time drawn at line 256.  The `UPDATE` fails when it would
give the row the email of another row; then `GetByID` reads the row back. -/
def Update (db : DB) (id : String) (now : Int) (input : ContactInput) :
    DB × Except GoError Contact :=
  if db.rows.any (fun r => r.id = id) &&
      db.rows.any (fun r => r.id ≠ id && r.email = input.Email) then
    (db, .error (.uniqueConstraintFailed "contacts.email"))
  else
    let db' : DB := ⟨db.rows.map (fun r => if r.id = id then updateRow r now input else r)⟩
    (db', GetByID db' id)

/-- Method `Delete`: runs the `DELETE` statement and returns the error of `Exec`, which
is nil whether or not a row had the id. -/
def Delete (db : DB) (id : String) : DB × Option GoError :=
  let err : Option GoError := none
  (⟨db.rows.filter (fun r => r.id ≠ id)⟩, err)

end ContactRepository

/-! ## service/contact_service.go -/

namespace ContactService

/-- Method `ListContacts`, over the repository's `List` (lines 24-36). -/
def ListContacts {α : Type} (repoList : ListOptions → α) (opts : ListOptions) : α :=
  let opts := if opts.Page ≤ 0 then { opts with Page := 1 } else opts
  let opts := if opts.Limit ≤ 0 then { opts with Limit := 20 } else opts
  let opts := if opts.Limit > 100 then { opts with Limit := 100 } else opts
  repoList opts

/-- Method `DeleteContact` of the service. -/
def DeleteContact (db : DB) (id : String) : DB × Option GoError :=
  ContactRepository.Delete db id

/-- The body of the loop of `BulkCreateContacts` (lines 51-58), on the state of
the repository and the two slices built so far. -/
def bulkCreateStep {σ ε : Type} (create : σ → ContactInput → σ × Except ε Contact)
    (acc : σ × List (Option Contact) × List (Option ε)) (input : ContactInput) :
    σ × List (Option Contact) × List (Option ε) :=
  match create acc.1 input with
  | (s', .error err) => (s', acc.2.1 ++ [none], acc.2.2 ++ [some err])
  | (s', .ok contact) => (s', acc.2.1 ++ [some contact], acc.2.2 ++ [none])

/-- Method `BulkCreateContacts`, over the repository's `Create` acting on a state. -/
def BulkCreateContacts {σ ε : Type} (create : σ → ContactInput → σ × Except ε Contact)
    (s : σ) (inputs : List ContactInput) :
    σ × List (Option Contact) × List (Option ε) :=
  inputs.foldl (bulkCreateStep create) (s, [], [])

end ContactService

/-! ## handlers/rest_handlers.go -/

namespace RESTHandler

/-- The struct `PaginationInfo`. -/
structure PaginationInfo where
  Page : Int
  Limit : Int
  Total : Int
  TotalPages : Int
  HasNext : Bool
  HasPrevious : Bool
  deriving DecidableEq, Repr

/-- The struct `ListContactsResponse`. -/
structure ListContactsResponse where
  Contacts : List Contact
  Pagination : PaginationInfo
  deriving DecidableEq, Repr

/-- The pagination block of `ListContacts` (lines 70-82), from the request's
page and limit and the total the service returned. -/
def pagination (page limit total : Int) : Except Panic PaginationInfo :=
  match goDiv (goSub (goAdd total limit) 1) limit with
  | .error p => .error p
  | .ok totalPages =>
    .ok { Page := page, Limit := limit, Total := total, TotalPages := totalPages,
          HasNext := decide (page < totalPages), HasPrevious := decide (page > 1) }

/-- Handler `ListContacts`, from the integers `strconv.Atoi` returned for the query
parameters `page` and `limit` and the strings of `search` and `tag`: the
response written with status 200, or the panic that ends the handler. -/
def ListContacts (db : DB) (page limit : Int) (search tag : String) :
    Except Panic ListContactsResponse :=
  let opts : ListOptions := { Page := page, Limit := limit, Search := search, Tag := tag }
  let (contacts, total) := ContactService.ListContacts (ContactRepository.List db) opts
  match pagination page limit total with
  | .error p => .error p
  | .ok info => .ok { Contacts := contacts, Pagination := info }

/-- Handler `DeleteContact`: the database after the request and the status code. -/
def DeleteContact (db : DB) (id : String) : DB × Nat :=
  match ContactService.DeleteContact db id with
  | (db', some err) => if err = GoError.errNoRows then (db', 404) else (db', 500)
  | (db', none) => (db', 204)

/-- The loop of `BulkCreateContacts` (lines 180-189) from index `i` on. -/
def bulkLoop {ε : Type} (errors : List (Option ε)) :
    Nat → List (Option Contact) → List Contact → List (Nat × ε) →
      Except Panic (List Contact × List (Nat × ε))
  | _, [], created, bulkErrors => .ok (created, bulkErrors)
  | i, contact :: rest, created, bulkErrors =>
    match errors[i]? with
    | none => .error .indexOutOfRange
    | some (some err) => bulkLoop errors (i + 1) rest created (bulkErrors ++ [(i, err)])
    | some none =>
      match contact with
      | some c => bulkLoop errors (i + 1) rest (created ++ [c]) bulkErrors
      | none => bulkLoop errors (i + 1) rest created bulkErrors

/-- Handler `BulkCreateContacts`, after the request body is bound: the state after the
request, and the lists `created` and `errors` of the response (index, error). -/
def BulkCreateContacts {σ ε : Type} (create : σ → ContactInput → σ × Except ε Contact)
    (s : σ) (inputs : List ContactInput) :
    σ × Except Panic (List Contact × List (Nat × ε)) :=
  let (s', contacts, errors) := ContactService.BulkCreateContacts create s inputs
  (s', bulkLoop errors 0 contacts [] [])

end RESTHandler

/-! ## Sample data -/

/-- A stored row with the given number as id, email and creation time. -/
def sampleRow (i : Nat) : Row :=
  { id := toString i, first_name := "Ada", last_name := "Byron",
    email := toString i ++ "@x.com", phone_number := none, address_street := none,
    address_city := none, address_state := none, address_postal_code := none,
    address_country := none, company := none, job_title := none, tags := "[]",
    notes := none, created_at := i, updated_at := i }

/-- A database of `n` rows. -/
def sampleDB (n : Nat) : DB := ⟨(List.range n).map sampleRow⟩

/-- Three rows at two per page. -/
def threeRows : DB := sampleDB 3

/-! ## Bulk create: reference definitions -/

/-- Reference for the bulk create: `create` is called once per input, in input
order, each call acting on the state the previous call left; the result is the
final state and the outcome of every call. -/
def createTrace {σ ε : Type} (create : σ → ContactInput → σ × Except ε Contact) (s : σ) :
    List ContactInput → σ × List (Except ε Contact)
  | [] => (s, [])
  | input :: rest =>
    ((createTrace create (create s input).1 rest).1,
      (create s input).2 :: (createTrace create (create s input).1 rest).2)

/-- The contact of an outcome, nil for a failure. -/
def outcomeContact {ε : Type} : Except ε Contact → Option Contact
  | .ok c => some c
  | .error _ => none

/-- The error of an outcome, nil for a success. -/
def outcomeError {ε : Type} : Except ε Contact → Option ε
  | .ok _ => none
  | .error e => some e

/-- The paired result of an outcome: exactly one side is non-nil. -/
def outcomePair {ε : Type} : Except ε Contact → Option Contact × Option ε
  | .ok c => (some c, none)
  | .error e => (none, some e)

/-- The failures among the outcomes, each with its index, counting from `i`. -/
def failuresFrom {ε : Type} (i : Nat) : List (Except ε Contact) → List (Nat × ε)
  | [] => []
  | .ok _ :: rest => failuresFrom (i + 1) rest
  | .error e :: rest => (i, e) :: failuresFrom (i + 1) rest

/-- The repository with its sources of ids and times: `uuid.New()` and
`time.Now()` return the values `uuid calls` and `clock calls` at the call
numbered `calls`. -/
structure World where
  db : DB
  uuid : Nat → String
  clock : Nat → Int
  calls : Nat

/-- The method `ContactRepository.Create` acting on the world. -/
def World.create (w : World) (input : ContactInput) : World × Except GoError Contact :=
  ({ w with db := (ContactRepository.Create w.db (w.uuid w.calls) (w.clock w.calls) input).1,
            calls := w.calls + 1 },
    (ContactRepository.Create w.db (w.uuid w.calls) (w.clock w.calls) input).2)

/-- An empty database, ids `id0`, `id1`, ... and times 0, 1, ... -/
def emptyWorld : World :=
  { db := ⟨[]⟩, uuid := fun n => "id" ++ toString n, clock := fun n => n, calls := 0 }

/-- An input with the given email and no optional field. -/
def plainInput (email : String) : ContactInput :=
  { FirstName := "Ada", LastName := "Byron", Email := email, PhoneNumber := none,
    Address := none, Company := none, JobTitle := none, Tags := none, Notes := none }

/-- An input whose address is present with no sub-field set, as a request
body with an empty address object binds it. -/
def emptyAddressInput : ContactInput :=
  { plainInput "a@x.com" with
    Address := some { Street := none, City := none, State := none, PostalCode := none,
                      Country := none } }

/-- An input tagged `a` and `b`. -/
def twoTagsInput : ContactInput :=
  { plainInput "a@x.com" with Tags := some ["a", "b"] }

/-- A database holding the one contact created from `twoTagsInput`. -/
def twoTagsDB : DB := (ContactRepository.Create ⟨[]⟩ "id0" 0 twoTagsInput).1

/-! ## Go integer arithmetic -/

theorem wrapInt_of_range (x : Int) (h1 : minInt ≤ x) (h2 : x ≤ maxInt) : wrapInt x = x := by
  unfold wrapInt
  unfold minInt at h1
  unfold maxInt at h2
  omega

theorem wrapInt_sub_wrapInt_add (a b c : Int) :
    wrapInt (wrapInt (a + b) - c) = wrapInt (a + b - c) := by
  unfold wrapInt
  omega

/-- The handler's expression `(total + limit - 1) / limit` when the exact sum
fits a Go `int`. -/
theorem totalPages_exact (total limit : Int) (ht : 0 ≤ total) (hl : 1 ≤ limit)
    (hb : total + limit - 1 ≤ maxInt) :
    goDiv (goSub (goAdd total limit) 1) limit = .ok ((total + limit - 1) / limit) := by
  have hne : limit ≠ 0 := by omega
  have hsum : goSub (goAdd total limit) 1 = total + limit - 1 := by
    unfold goSub goAdd
    rw [wrapInt_sub_wrapInt_add]
    apply wrapInt_of_range
    · unfold minInt; omega
    · exact hb
  have hq0 : 0 ≤ (total + limit - 1) / limit := Int.ediv_nonneg (by omega) (by omega)
  have hq1 : (total + limit - 1) / limit ≤ total + limit - 1 :=
    Int.ediv_le_self _ (by omega)
  unfold goDiv
  rw [if_neg hne, hsum, Int.tdiv_eq_ediv (by omega) (by omega)]
  rw [wrapInt_of_range _ (by unfold minInt; omega) (by omega)]

/-- Integer ceiling division agrees with the ceiling of the exact quotient. -/
theorem ceil_div_eq (total limit : Int) (hl : 1 ≤ limit) :
    ⌈(total : ℚ) / (limit : ℚ)⌉ = (total + limit - 1) / limit := by
  have hlpos : (0 : ℚ) < (limit : ℚ) := by exact_mod_cast (by omega : (0 : Int) < limit)
  have h1 : limit * ((total + limit - 1) / limit) ≤ total + limit - 1 :=
    Int.mul_ediv_self_le (by omega)
  have h2 : total + limit - 1 < limit * ((total + limit - 1) / limit) + limit :=
    Int.lt_mul_ediv_self_add (by omega)
  rw [Int.ceil_eq_iff]
  constructor
  · rw [lt_div_iff₀ hlpos]
    have : ((total + limit - 1) / limit - 1) * limit < total := by nlinarith
    exact_mod_cast this
  · rw [div_le_iff₀ hlpos]
    have : total ≤ ((total + limit - 1) / limit) * limit := by nlinarith
    exact_mod_cast this

/-! ## Normalisation of the list options -/

/-- The options the service forwards, for any repository function. -/
theorem listContacts_forward_eq {α : Type} (repoList : ListOptions → α)
    (opts : ListOptions) :
    ContactService.ListContacts repoList opts =
      repoList
        { Page := if opts.Page ≤ 0 then 1 else opts.Page,
          Limit := if opts.Limit ≤ 0 then 20
                   else if opts.Limit > 100 then 100 else opts.Limit,
          Search := opts.Search,
          Tag := opts.Tag } := by
  unfold ContactService.ListContacts
  by_cases hp : opts.Page ≤ 0 <;> by_cases hl : opts.Limit ≤ 0 <;>
    by_cases hh : opts.Limit > 100 <;>
    simp [hp, hl, hh]

/-- C1: `ContactService.ListContacts` forwards to the repository the options
with page 1 when the given page is at most 0 and the given page otherwise, with
limit 20 when the given limit is at most 0, 100 when it exceeds 100 and the
given limit otherwise, and with search and tag unchanged; the forwarded page is
at least 1 and the forwarded limit lies between 1 and 100. -/
theorem listContacts_forwards_normalized {α : Type} (repoList : ListOptions → α)
    (opts : ListOptions) :
    ContactService.ListContacts repoList opts =
        repoList
          { Page := if opts.Page ≤ 0 then 1 else opts.Page,
            Limit := if opts.Limit ≤ 0 then 20
                     else if opts.Limit > 100 then 100 else opts.Limit,
            Search := opts.Search,
            Tag := opts.Tag } ∧
      1 ≤ (ContactService.ListContacts id opts).Page ∧
      1 ≤ (ContactService.ListContacts id opts).Limit ∧
      (ContactService.ListContacts id opts).Limit ≤ 100 := by
  refine ⟨listContacts_forward_eq repoList opts, ?_⟩
  rw [listContacts_forward_eq id opts]
  simp only [id]
  refine ⟨?_, ?_, ?_⟩
  · split_ifs <;> omega
  · split_ifs <;> omega
  · split_ifs <;> omega

/-! ## The pagination block -/

/-- C2: with the query parameter `limit` equal to 0 the handler `ListContacts`
ends in the run-time panic of an integer division by zero, for every database,
page, search and tag: the service normalises its own copy of the options, and
the handler divides by the limit of the request. -/
theorem listContacts_limit_zero_panics (db : DB) (page : Int) (search tag : String) :
    RESTHandler.ListContacts db page 0 search tag = .error Panic.integerDivideByZero := by
  simp [RESTHandler.ListContacts, RESTHandler.pagination, goDiv]

/-- C4, as stated, fails: for total 2 and the largest Go `int` as limit the
handler reports -1 total pages, and the ceiling of the exact quotient is 1. -/
theorem pagination_overflow_counterexample :
    RESTHandler.pagination 1 9223372036854775807 2 =
        .ok { Page := 1, Limit := 9223372036854775807, Total := 2, TotalPages := -1,
              HasNext := false, HasPrevious := false } ∧
      ⌈(2 : ℚ) / (9223372036854775807 : ℚ)⌉ = 1 := by
  constructor
  · rfl
  · rw [Int.ceil_eq_iff]
    norm_num

/-- The pagination block when `total + limit - 1` fits a Go `int`. -/
theorem pagination_eq (page limit total : Int) (ht : 0 ≤ total) (hl : 1 ≤ limit)
    (hb : total + limit - 1 ≤ maxInt) :
    RESTHandler.pagination page limit total =
      .ok { Page := page, Limit := limit, Total := total,
            TotalPages := (total + limit - 1) / limit,
            HasNext := decide (page < (total + limit - 1) / limit),
            HasPrevious := decide (page > 1) } := by
  unfold RESTHandler.pagination
  rw [totalPages_exact total limit ht hl hb]

/-- C4, amended: for every total ≥ 0, every limit ≥ 1 with
`total + limit - 1` at most the largest Go `int`, and every page, the pagination
block of the handler has `totalPages` equal to the ceiling of `total / limit`
(and to the integer expression `(total + limit - 1) / limit`),
`hasNext = (page < totalPages)` and `hasPrevious = (page > 1)`. -/
theorem pagination_block_exact (page limit total : Int) (ht : 0 ≤ total) (hl : 1 ≤ limit)
    (hb : total + limit - 1 ≤ maxInt) :
    ∃ info : RESTHandler.PaginationInfo,
      RESTHandler.pagination page limit total = .ok info ∧
      info.Page = page ∧ info.Limit = limit ∧ info.Total = total ∧
      info.TotalPages = ⌈(total : ℚ) / (limit : ℚ)⌉ ∧
      info.TotalPages = (total + limit - 1) / limit ∧
      info.HasNext = decide (page < info.TotalPages) ∧
      info.HasPrevious = decide (page > 1) :=
  ⟨_, pagination_eq page limit total ht hl hb, rfl, rfl, rfl,
    (ceil_div_eq total limit hl).symm, rfl, rfl, rfl⟩

/-- Witness of `pagination_block_exact`: 45 rows at 20 per page, page 2. -/
theorem pagination_block_exact_witness :
    ∃ info : RESTHandler.PaginationInfo,
      RESTHandler.pagination 2 20 45 = .ok info ∧
      info.Page = 2 ∧ info.Limit = 20 ∧ info.Total = 45 ∧
      info.TotalPages = ⌈((45 : Int) : ℚ) / ((20 : Int) : ℚ)⌉ ∧
      info.TotalPages = (45 + 20 - 1) / 20 ∧
      info.HasNext = decide (2 < info.TotalPages) ∧
      info.HasPrevious = decide ((2 : Int) > 1) :=
  pagination_block_exact 2 20 45 (by decide) (by decide) (by decide)

/-! ## Page sizes -/

theorem matchingRows_congr (db : DB) (o o' : ListOptions) (hs : o.Search = o'.Search)
    (ht : o.Tag = o'.Tag) : matchingRows db o = matchingRows db o' := by
  have hw : whereClause o = whereClause o' := by
    funext r
    simp [whereClause, hs, ht]
  unfold matchingRows
  rw [hw]

theorem sqlLimitOffset_length (rows : List Row) (limit offset : Int) (hl : 0 ≤ limit)
    (ho : 0 ≤ offset) :
    ((sqlLimitOffset rows limit offset).length : Int) =
      min limit (max 0 ((rows.length : Int) - offset)) := by
  unfold sqlLimitOffset
  simp only [not_lt.mpr hl, not_lt.mpr ho, if_false, List.length_take, List.length_drop]
  omega

/-- The handler's response in terms of the matching rows of the request. -/
theorem listContacts_response (db : DB) (page limit : Int) (search tag : String)
    (info : RESTHandler.PaginationInfo)
    (hinfo : RESTHandler.pagination page limit
      ((matchingRows db ⟨page, limit, search, tag⟩).length : Int) = .ok info) :
    RESTHandler.ListContacts db page limit search tag =
      .ok { Contacts :=
              (sqlLimitOffset (matchingRows db ⟨page, limit, search, tag⟩)
                (if limit ≤ 0 then 20 else if limit > 100 then 100 else limit)
                (goMul (goSub (if page ≤ 0 then 1 else page) 1)
                  (if limit ≤ 0 then 20 else if limit > 100 then 100 else limit))).map
                ContactRepository.scanContact,
            Pagination := info } := by
  have hfwd := listContacts_forward_eq (ContactRepository.List db)
    ⟨page, limit, search, tag⟩
  simp only [RESTHandler.ListContacts, hfwd, ContactRepository.List]
  rw [matchingRows_congr db
    ⟨if page ≤ 0 then 1 else page,
      if limit ≤ 0 then 20 else if limit > 100 then 100 else limit, search, tag⟩
    ⟨page, limit, search, tag⟩ rfl rfl]
  simp only [hinfo]

theorem sampleDB_matching_length (n : Nat) (page limit : Int) :
    (matchingRows (sampleDB n) ⟨page, limit, "", ""⟩).length = n := by
  have hw : whereClause ⟨page, limit, "", ""⟩ = fun _ => true := by
    funext r
    simp [whereClause]
  unfold matchingRows
  rw [List.length_insertionSort, hw]
  simp [sampleDB]

/-- C3, as stated, fails: with 101 matching rows, requested limit 101 and page 1
the response reports 1 total page, so page 1 is the last page and should hold
101 - 101 * (1 - 1) = 101 contacts; it holds 100. -/
theorem page_size_counterexample :
    ∃ resp : RESTHandler.ListContactsResponse,
      RESTHandler.ListContacts (sampleDB 101) 1 101 "" "" = .ok resp ∧
      (matchingRows (sampleDB 101) ⟨1, 101, "", ""⟩).length = 101 ∧
      resp.Pagination.TotalPages = 1 ∧
      resp.Contacts.length = 100 ∧
      (resp.Contacts.length : Int) ≠ 101 - 101 * (resp.Pagination.TotalPages - 1) := by
  have hN := sampleDB_matching_length 101 1 101
  have hinfo : RESTHandler.pagination 1 101
      ((matchingRows (sampleDB 101) ⟨1, 101, "", ""⟩).length : Int) =
      .ok { Page := 1, Limit := 101, Total := 101, TotalPages := 1,
            HasNext := false, HasPrevious := false } := by
    rw [hN]
    rfl
  have hlen := sqlLimitOffset_length (matchingRows (sampleDB 101) ⟨1, 101, "", ""⟩) 100 0
    (by decide) (by decide)
  rw [hN] at hlen
  have hlen' : (sqlLimitOffset (matchingRows (sampleDB 101) ⟨1, 101, "", ""⟩) 100 0).length
      = 100 := by
    have : ((sqlLimitOffset (matchingRows (sampleDB 101) ⟨1, 101, "", ""⟩) 100 0).length
        : Int) = 100 := by
      rw [hlen]
      decide
    exact_mod_cast this
  refine ⟨_, listContacts_response (sampleDB 101) 1 101 "" "" _ hinfo, hN, rfl, ?_, ?_⟩
  · have hoff : goMul (goSub (if (1 : Int) ≤ 0 then 1 else 1) 1)
        (if (101 : Int) ≤ 0 then 20 else if (101 : Int) > 100 then 100 else 101) = 0 := by
      rfl
    have hlim : (if (101 : Int) ≤ 0 then (20 : Int)
        else if (101 : Int) > 100 then 100 else 101) = 100 := by
      rfl
    simp only [List.length_map]
    rw [hoff, hlim]
    exact hlen'
  · have hoff : goMul (goSub (if (1 : Int) ≤ 0 then 1 else 1) 1)
        (if (101 : Int) ≤ 0 then 20 else if (101 : Int) > 100 then 100 else 101) = 0 := by
      rfl
    have hlim : (if (101 : Int) ≤ 0 then (20 : Int)
        else if (101 : Int) > 100 then 100 else 101) = 100 := by
      rfl
    simp only [List.length_map]
    rw [hoff, hlim, hlen']
    decide

/-- C3, amended: for N matching rows, every requested limit L with
1 ≤ L ≤ 100 (and N + L - 1 within the Go `int` range) and every requested page p
with 1 ≤ p ≤ totalPages, where totalPages = (N + L - 1) / L is the value the
response reports, the response holds exactly L contacts when p < totalPages and
exactly N - L * (totalPages - 1) contacts when p = totalPages, and hasNext is
true on every such page except the last. -/
theorem page_sizes (db : DB) (page limit : Int) (search tag : String)
    (hL1 : 1 ≤ limit) (hL2 : limit ≤ 100)
    (hN : ((matchingRows db ⟨page, limit, search, tag⟩).length : Int) + limit - 1 ≤ maxInt)
    (hp1 : 1 ≤ page)
    (hp2 : page ≤
      (((matchingRows db ⟨page, limit, search, tag⟩).length : Int) + limit - 1) / limit) :
    ∃ resp : RESTHandler.ListContactsResponse,
      RESTHandler.ListContacts db page limit search tag = .ok resp ∧
      resp.Pagination.Total = (matchingRows db ⟨page, limit, search, tag⟩).length ∧
      resp.Pagination.TotalPages =
        (((matchingRows db ⟨page, limit, search, tag⟩).length : Int) + limit - 1) / limit ∧
      (resp.Contacts.length : Int) =
        (if page < resp.Pagination.TotalPages then limit
         else ((matchingRows db ⟨page, limit, search, tag⟩).length : Int)
                - limit * (resp.Pagination.TotalPages - 1)) ∧
      resp.Pagination.HasNext = decide (page ≠ resp.Pagination.TotalPages) := by
  have hinfo := pagination_eq page limit
    ((matchingRows db ⟨page, limit, search, tag⟩).length : Int) (by omega) hL1 hN
  refine ⟨_, listContacts_response db page limit search tag _ hinfo, rfl, rfl, ?_, ?_⟩
  · generalize hNdef : ((matchingRows db ⟨page, limit, search, tag⟩).length : Int) = N at *
    have hN0 : 0 ≤ N := by rw [← hNdef]; exact Int.natCast_nonneg _
    have hq1 : limit * ((N + limit - 1) / limit) ≤ N + limit - 1 :=
      Int.mul_ediv_self_le (by omega)
    have hq2 : N + limit - 1 < limit * ((N + limit - 1) / limit) + limit :=
      Int.lt_mul_ediv_self_add (by omega)
    generalize (N + limit - 1) / limit = q at *
    have hl0 : ¬ limit ≤ 0 := by omega
    have hl100 : ¬ limit > 100 := by omega
    have hp0 : ¬ page ≤ 0 := by omega
    have hmul1 : 0 ≤ (page - 1) * limit := mul_nonneg (by omega) (by omega)
    have hmul2 : (page - 1) * limit ≤ (q - 1) * limit :=
      mul_le_mul_of_nonneg_right (by omega) (by omega)
    have hqexp : (q - 1) * limit = limit * q - limit := by ring
    have hqle : q ≤ limit * q := le_mul_of_one_le_left (by omega) hL1
    have hoff : goMul (goSub page 1) limit = (page - 1) * limit := by
      unfold goMul goSub
      rw [wrapInt_of_range (page - 1) (by unfold minInt; omega)
        (by unfold maxInt at *; omega)]
      exact wrapInt_of_range _ (by unfold minInt; omega) (by unfold maxInt at *; omega)
    simp only [hl0, hl100, hp0, if_false, List.length_map, hoff]
    rw [sqlLimitOffset_length _ _ _ (by omega) hmul1, hNdef]
    by_cases hlt : page < q
    · rw [if_pos hlt]
      have hle : page * limit ≤ (q - 1) * limit :=
        mul_le_mul_of_nonneg_right (by omega) (by omega)
      have hpexp : (page - 1) * limit = page * limit - limit := by ring
      omega
    · rw [if_neg hlt]
      have heq : page = q := by omega
      subst heq
      have hpexp : limit * (page - 1) = (page - 1) * limit := by ring
      omega
  · simp only [decide_eq_decide]
    omega

/-- Witness of `page_sizes`: three rows at two per page, page 2. -/
theorem page_sizes_witness :
    ∃ resp : RESTHandler.ListContactsResponse,
      RESTHandler.ListContacts threeRows 2 2 "" "" = .ok resp ∧
      resp.Pagination.Total = (matchingRows threeRows ⟨2, 2, "", ""⟩).length ∧
      resp.Pagination.TotalPages =
        (((matchingRows threeRows ⟨2, 2, "", ""⟩).length : Int) + 2 - 1) / 2 ∧
      (resp.Contacts.length : Int) =
        (if 2 < resp.Pagination.TotalPages then 2
         else ((matchingRows threeRows ⟨2, 2, "", ""⟩).length : Int)
                - 2 * (resp.Pagination.TotalPages - 1)) ∧
      resp.Pagination.HasNext = decide ((2 : Int) ≠ resp.Pagination.TotalPages) :=
  page_sizes threeRows 2 2 "" "" (by decide) (by decide)
    (by rw [threeRows, sampleDB_matching_length]; decide)
    (by decide)
    (by rw [threeRows, sampleDB_matching_length]; decide)

/-! ## Delete -/

/-- C6: `ContactRepository.Delete`, `ContactService.DeleteContact` and the
handler report success for every id on every database: the error is nil and the
status is 204 also when no row has the id, as on the empty database and on a
second delete of the same id. -/
theorem delete_always_succeeds (db : DB) (id : String) :
    (ContactRepository.Delete db id).2 = none ∧
      (ContactService.DeleteContact db id).2 = none ∧
      (RESTHandler.DeleteContact db id).2 = 204 ∧
      ContactRepository.Delete ⟨[]⟩ id = (⟨[]⟩, none) ∧
      (ContactRepository.Delete (ContactRepository.Delete db id).1 id).2 = none ∧
      (RESTHandler.DeleteContact (RESTHandler.DeleteContact db id).1 id).2 = 204 :=
  ⟨rfl, rfl, rfl, rfl, rfl, rfl⟩

/-! ## Tags column written by `Create` and `Update` -/

/-- C9, as stated, fails: for an input whose tags are absent (nil) `Create` and
`Update` write the text `null` to the tags column. -/
theorem nil_tags_written_as_null :
    (ContactRepository.insertRow "id0" 0 (plainInput "a@x.com")).tags = "null" ∧
      (ContactRepository.updateRow (sampleRow 0) 1 (plainInput "a@x.com")).tags = "null" ∧
      (plainInput "a@x.com").Tags = none := by
  decide

/-- C9, amended: for every input whose tags are an empty non-nil list `Create`
and `Update` write the empty-list encoding `[]` to the tags column; for every
input whose tags are absent (nil) they write `null`. -/
theorem tags_column_of_empty_and_nil (id : String) (now : Int) (old : Row)
    (input : ContactInput) :
    (ContactRepository.insertRow id now { input with Tags := some [] }).tags = "[]" ∧
      (ContactRepository.updateRow old now { input with Tags := some [] }).tags = "[]" ∧
      (ContactRepository.insertRow id now { input with Tags := none }).tags = "null" ∧
      (ContactRepository.updateRow old now { input with Tags := none }).tags = "null" :=
  ⟨rfl, rfl, rfl, rfl⟩

/-! ## Address decoding -/

/-- C10: the row decoding used by `GetByID` and by `List` gives a contact whose
address is present exactly when one of the five address columns is non-null;
a present address carries the five columns as its sub-fields (set exactly when
the column is non-null, with the column's value), and the decoded address is
never present with all five sub-fields null. -/
theorem address_decoding (r : Row) (db : DB) (id : String) (opts : ListOptions) :
    (ContactRepository.scanContact r).Address =
        (if r.address_street.isSome ∨ r.address_city.isSome ∨ r.address_state.isSome ∨
            r.address_postal_code.isSome ∨ r.address_country.isSome then
          some { Street := r.address_street, City := r.address_city,
                 State := r.address_state, PostalCode := r.address_postal_code,
                 Country := r.address_country }
         else none) ∧
      (ContactRepository.scanContact r).Address ≠
        some { Street := none, City := none, State := none, PostalCode := none,
               Country := none } ∧
      ContactRepository.GetByID db id =
        (match db.rows.find? (fun row => row.id = id) with
         | none => .error GoError.errNoRows
         | some row => .ok (ContactRepository.scanContact row)) ∧
      (ContactRepository.List db opts).1 =
        (sqlLimitOffset (matchingRows db opts) opts.Limit
          (goMul (goSub opts.Page 1) opts.Limit)).map ContactRepository.scanContact := by
  refine ⟨?_, ?_, rfl, rfl⟩
  · unfold ContactRepository.scanContact
    cases h1 : r.address_street <;> cases h2 : r.address_city <;>
      cases h3 : r.address_state <;> cases h4 : r.address_postal_code <;>
      cases h5 : r.address_country <;> by_cases ht : r.tags = "" <;> simp [ht]
  · unfold ContactRepository.scanContact
    cases h1 : r.address_street <;> cases h2 : r.address_city <;>
      cases h3 : r.address_state <;> cases h4 : r.address_postal_code <;>
      cases h5 : r.address_country <;> by_cases ht : r.tags = "" <;> simp [ht]

/-! ## Bulk create -/

theorem bulkCreate_foldl {σ ε : Type} (create : σ → ContactInput → σ × Except ε Contact)
    (inputs : List ContactInput) (s : σ) (cs : List (Option Contact))
    (es : List (Option ε)) :
    inputs.foldl (ContactService.bulkCreateStep create) (s, cs, es) =
      ((createTrace create s inputs).1,
        cs ++ (createTrace create s inputs).2.map outcomeContact,
        es ++ (createTrace create s inputs).2.map outcomeError) := by
  induction inputs generalizing s cs es with
  | nil => simp [createTrace]
  | cons input rest ih =>
    rw [List.foldl_cons]
    rcases hc : create s input with ⟨s', r⟩
    cases r with
    | error err =>
      have hstep : ContactService.bulkCreateStep create (s, cs, es) input =
          (s', cs ++ [none], es ++ [some err]) := by
        simp [ContactService.bulkCreateStep, hc]
      rw [hstep, ih]
      simp [createTrace, hc, outcomeContact, outcomeError]
    | ok contact =>
      have hstep : ContactService.bulkCreateStep create (s, cs, es) input =
          (s', cs ++ [some contact], es ++ [none]) := by
        simp [ContactService.bulkCreateStep, hc]
      rw [hstep, ih]
      simp [createTrace, hc, outcomeContact, outcomeError]

theorem bulkCreate_eq_trace {σ ε : Type} (create : σ → ContactInput → σ × Except ε Contact)
    (s : σ) (inputs : List ContactInput) :
    ContactService.BulkCreateContacts create s inputs =
      ((createTrace create s inputs).1,
        (createTrace create s inputs).2.map outcomeContact,
        (createTrace create s inputs).2.map outcomeError) := by
  unfold ContactService.BulkCreateContacts
  rw [bulkCreate_foldl]
  simp

theorem createTrace_length {σ ε : Type} (create : σ → ContactInput → σ × Except ε Contact)
    (s : σ) (inputs : List ContactInput) :
    (createTrace create s inputs).2.length = inputs.length := by
  induction inputs generalizing s with
  | nil => rfl
  | cons input rest ih => simp [createTrace, ih]

theorem zip_outcomes {ε : Type} (os : List (Except ε Contact)) :
    List.zip (os.map outcomeContact) (os.map outcomeError) = os.map outcomePair := by
  induction os with
  | nil => rfl
  | cons o rest ih =>
    cases o <;> simp [outcomeContact, outcomeError, outcomePair, ih]

theorem bulkLoop_outcomes {ε : Type} (rest : List (Except ε Contact)) :
    ∀ (done : List (Except ε Contact)) (created : List Contact)
      (bulkErrors : List (Nat × ε)),
      RESTHandler.bulkLoop ((done ++ rest).map outcomeError) done.length
          (rest.map outcomeContact) created bulkErrors =
        .ok (created ++ rest.filterMap outcomeContact,
             bulkErrors ++ failuresFrom done.length rest) := by
  induction rest with
  | nil =>
    intro done created bulkErrors
    simp [RESTHandler.bulkLoop, failuresFrom]
  | cons o rest ih =>
    intro done created bulkErrors
    have hidx : ((done ++ o :: rest).map outcomeError)[done.length]? =
        some (outcomeError o) := by
      rw [List.map_append, List.getElem?_append_right (by simp)]
      simp
    have hnext := ih (done ++ [o])
    simp only [List.append_assoc, List.singleton_append, List.length_append,
      List.length_singleton] at hnext
    cases o with
    | error e =>
      simp only [List.map_cons, outcomeContact, RESTHandler.bulkLoop, hidx, outcomeError]
      rw [hnext]
      simp [failuresFrom, outcomeContact]
    | ok c =>
      simp only [List.map_cons, outcomeContact, RESTHandler.bulkLoop, hidx, outcomeError]
      rw [hnext]
      simp [failuresFrom, outcomeContact]

/-- C7: for every sequence of inputs and every behaviour of `create`,
`BulkCreateContacts` calls `create` once per input in input order (its final
state and outcomes are those of `createTrace`), and returns a contacts sequence
and an errors sequence of the length of the input, which pair up, index by
index, to the outcome of `create` on that input with exactly one side non-nil;
no failure stops later inputs.  The handler's `created` holds the successes in
input order and its `errors` exactly the failing indices; with three inputs of
which only index 1 fails on a duplicate email, `created` comes from indices 0
and 2 and `errors` has the one entry of index 1. -/
theorem bulkCreate_per_item {σ ε : Type}
    (create : σ → ContactInput → σ × Except ε Contact) (s : σ)
    (inputs : List ContactInput) :
    ContactService.BulkCreateContacts create s inputs =
        ((createTrace create s inputs).1,
          (createTrace create s inputs).2.map outcomeContact,
          (createTrace create s inputs).2.map outcomeError) ∧
      (createTrace create s inputs).2.length = inputs.length ∧
      (ContactService.BulkCreateContacts create s inputs).2.1.length = inputs.length ∧
      (ContactService.BulkCreateContacts create s inputs).2.2.length = inputs.length ∧
      List.zip (ContactService.BulkCreateContacts create s inputs).2.1
          (ContactService.BulkCreateContacts create s inputs).2.2 =
        (createTrace create s inputs).2.map outcomePair ∧
      RESTHandler.BulkCreateContacts create s inputs =
        ((createTrace create s inputs).1,
          .ok ((createTrace create s inputs).2.filterMap outcomeContact,
               failuresFrom 0 (createTrace create s inputs).2)) ∧
      (RESTHandler.BulkCreateContacts World.create emptyWorld
          [plainInput "a@x.com", plainInput "a@x.com", plainInput "c@x.com"]).2 =
        .ok ([ContactRepository.newContact "id0" 0 (plainInput "a@x.com"),
              ContactRepository.newContact "id2" 2 (plainInput "c@x.com")],
             [(1, GoError.uniqueConstraintFailed "contacts.email")]) := by
  have htrace := bulkCreate_eq_trace create s inputs
  have hlen := createTrace_length create s inputs
  refine ⟨htrace, hlen, ?_, ?_, ?_, ?_, ?_⟩
  · rw [htrace]
    simp [hlen]
  · rw [htrace]
    simp [hlen]
  · rw [htrace]
    exact zip_outcomes _
  · unfold RESTHandler.BulkCreateContacts
    rw [htrace]
    have h := bulkLoop_outcomes (createTrace create s inputs).2 [] [] []
    simp only [List.nil_append, List.length_nil] at h
    simp only [h]
  · rfl

/-! ## JSON round trip of the tags -/

theorem parseStringBody_ascii (n : Nat) (hn : n < 128) (tail : List Char) (fuel : Nat) :
    parseStringBody (fuel + 1) (escapeChar (Char.ofNat n) ++ tail) =
      (match parseStringBody fuel tail with
       | none => none
       | some (s, r) => some (Char.ofNat n :: s, r)) := by
  interval_cases n <;> rfl

/-- Reading back the encoding of one character costs one unit of fuel and
yields the character. -/
theorem parseStringBody_escapeChar (c : Char) (tail : List Char) (fuel : Nat) :
    parseStringBody (fuel + 1) (escapeChar c ++ tail) =
      (match parseStringBody fuel tail with
       | none => none
       | some (s, r) => some (c :: s, r)) := by
  by_cases hc : c.toNat < 128
  · have h := parseStringBody_ascii c.toNat hc tail fuel
    rwa [Char.ofNat_toNat] at h
  · by_cases h1 : c = Char.ofNat 0x2028
    · subst h1
      rfl
    · by_cases h2 : c = Char.ofNat 0x2029
      · subst h2
        rfl
      · have hq : c ≠ '"' := by
          intro h
          subst h
          exact hc (by decide)
        have hb : c ≠ '\\' := by
          intro h
          subst h
          exact hc (by decide)
        have hlow : ¬ c.toNat < 0x20 := by omega
        have hesc : escapeChar c = [c] := by
          unfold escapeChar
          rw [if_neg hc, if_neg (by simp [h1, h2])]
        rw [hesc]
        show parseStringBody (fuel + 1) (c :: tail) = _
        simp only [parseStringBody, if_neg hq, if_neg hb, if_neg hlow]

theorem escapeChar_length_pos (c : Char) : 1 ≤ (escapeChar c).length := by
  unfold escapeChar
  split_ifs <;> simp

theorem escapeChars_length (cs : List Char) : cs.length ≤ (escapeChars cs).length := by
  induction cs with
  | nil => simp [escapeChars]
  | cons c cs ih =>
    have := escapeChar_length_pos c
    simp only [escapeChars, List.length_append, List.length_cons]
    omega

/-- Reading back the characters between the quotes, with enough fuel. -/
theorem parseStringBody_escapeChars (cs : List Char) :
    ∀ (fuel : Nat) (rest : List Char), cs.length < fuel →
      parseStringBody fuel (escapeChars cs ++ '"' :: rest) = some (cs, rest) := by
  induction cs with
  | nil =>
    intro fuel rest hf
    obtain ⟨f, rfl⟩ : ∃ f, fuel = f + 1 := ⟨fuel - 1, by omega⟩
    simp [escapeChars, parseStringBody]
  | cons c cs ih =>
    intro fuel rest hf
    obtain ⟨f, rfl⟩ : ∃ f, fuel = f + 1 := ⟨fuel - 1, by omega⟩
    have hf' : cs.length < f := by
      simp only [List.length_cons] at hf
      omega
    simp only [escapeChars, List.append_assoc]
    rw [parseStringBody_escapeChar, ih f rest hf']

theorem encodeTail_length (ss : List String) : ss.length + 1 ≤ (encodeTail ss).length := by
  induction ss with
  | nil => simp [encodeTail]
  | cons s ss ih =>
    simp only [encodeTail, List.length_cons, List.length_append]
    omega

theorem parseElement_quoteChars (s : String) (after : List Char) :
    parseElement (quoteChars s ++ after) = some (s, after) := by
  have hlen := escapeChars_length s.toList
  have hbody := parseStringBody_escapeChars s.toList
    ((escapeChars s.toList ++ '"' :: after).length + 1) after
    (by simp only [List.length_append, List.length_cons]; omega)
  have hq : quoteChars s ++ after = '"' :: (escapeChars s.toList ++ '"' :: after) := by
    simp [quoteChars]
  rw [hq, parseElement, if_pos rfl, hbody]
  rfl

/-- One step of `parseElements` on an encoded string followed by `after`. -/
theorem parseElements_quoteChars (s : String) (after : List Char) (fuel : Nat) :
    parseElements (fuel + 1) (quoteChars s ++ after) =
      (match skipSpace after with
       | [] => none
       | d :: r' =>
         if d = ']' then some ([s], r')
         else if d = ',' then
           match parseElements fuel (skipSpace r') with
           | none => none
           | some (ss, r'') => some (s :: ss, r'')
         else none) := by
  rw [parseElements, parseElement_quoteChars]

theorem skipSpace_quoteChars (s : String) (after : List Char) :
    skipSpace (quoteChars s ++ after) = quoteChars s ++ after := by
  simp [quoteChars, skipSpace, isSpace]

/-- Reading back the elements of an encoded array, with enough fuel. -/
theorem parseElements_encode (ss : List String) :
    ∀ (s : String) (fuel : Nat), ss.length < fuel →
      parseElements fuel (quoteChars s ++ encodeTail ss) = some (s :: ss, []) := by
  induction ss with
  | nil =>
    intro s fuel hf
    obtain ⟨f, rfl⟩ : ∃ f, fuel = f + 1 := ⟨fuel - 1, by omega⟩
    rw [parseElements_quoteChars]
    rfl
  | cons s' ss ih =>
    intro s fuel hf
    obtain ⟨f, rfl⟩ : ∃ f, fuel = f + 1 := ⟨fuel - 1, by omega⟩
    have hf' : ss.length < f := by
      simp only [List.length_cons] at hf
      omega
    rw [parseElements_quoteChars]
    have hsk : skipSpace (encodeTail (s' :: ss)) = ',' :: (quoteChars s' ++ encodeTail ss) := by
      simp [encodeTail, skipSpace, isSpace]
    rw [hsk]
    simp only [skipSpace_quoteChars, ih s' f hf']
    rfl

/-- The decoder reads back every encoded slice of strings. -/
theorem parseTags_encodeArray (ts : List String) : parseTags (encodeArray ts) = some ts := by
  cases ts with
  | nil => rfl
  | cons s ss =>
    have hlen := encodeTail_length ss
    have hparse := parseElements_encode ss s ((quoteChars s ++ encodeTail ss).length + 1)
      (by simp only [List.length_append]; omega)
    have hq : quoteChars s ++ encodeTail ss =
        '"' :: (escapeChars s.toList ++ '"' :: encodeTail ss) := by
      simp [quoteChars]
    rw [hq] at hparse
    have henc : encodeArray (s :: ss) =
        '[' :: '"' :: (escapeChars s.toList ++ '"' :: encodeTail ss) := by
      simp [encodeArray, quoteChars]
    rw [henc]
    have hs1 : skipSpace ('[' :: '"' :: (escapeChars s.toList ++ '"' :: encodeTail ss)) =
        '[' :: '"' :: (escapeChars s.toList ++ '"' :: encodeTail ss) := by
      simp [skipSpace, isSpace]
    have hs2 : skipSpace ('"' :: (escapeChars s.toList ++ '"' :: encodeTail ss)) =
        '"' :: (escapeChars s.toList ++ '"' :: encodeTail ss) := by
      simp [skipSpace, isSpace]
    unfold parseTags
    rw [hs1]
    simp only [hs2]
    rw [if_neg (by decide), hparse]
    rfl

/-- Round trip of the tags through `json.Marshal` and `json.Unmarshal`. -/
theorem unmarshalTags_marshalTags (tags : Option (List String)) :
    unmarshalTags (marshalTags tags) = tags := by
  cases tags with
  | none => rfl
  | some ts => exact parseTags_encodeArray ts

theorem marshalTags_ne_empty (tags : Option (List String)) : marshalTags tags ≠ "" := by
  cases tags with
  | none => decide
  | some ts =>
    cases ts with
    | nil => decide
    | cons s ss =>
      intro h
      have := congrArg String.toList h
      simp [marshalTags, encodeArray] at this

/-! ## Round trip of the entity mapping -/

/-- The decoded contact, field by field. -/
theorem scanContact_eq (r : Row) :
    ContactRepository.scanContact r =
      { ID := r.id, FirstName := r.first_name, LastName := r.last_name, Email := r.email,
        PhoneNumber := r.phone_number,
        Address :=
          if r.address_street.isSome ∨ r.address_city.isSome ∨ r.address_state.isSome ∨
              r.address_postal_code.isSome ∨ r.address_country.isSome then
            some { Street := r.address_street, City := r.address_city,
                   State := r.address_state, PostalCode := r.address_postal_code,
                   Country := r.address_country }
          else none,
        Company := r.company, JobTitle := r.job_title,
        Tags := if r.tags ≠ "" then unmarshalTags r.tags else none,
        Notes := r.notes, CreatedAt := r.created_at, UpdatedAt := r.updated_at } := by
  unfold ContactRepository.scanContact
  cases h1 : r.address_street <;> cases h2 : r.address_city <;>
    cases h3 : r.address_state <;> cases h4 : r.address_postal_code <;>
    cases h5 : r.address_country <;> by_cases ht : r.tags = "" <;> simp [ht]

/-- After a successful `Create`, `GetByID` finds the inserted row. -/
theorem getByID_after_create (db : DB) (id : String) (now : Int) (input : ContactInput) :
    (match (ContactRepository.Create db id now input).2 with
     | .ok c =>
       c = ContactRepository.newContact id now input ∧
       ContactRepository.GetByID (ContactRepository.Create db id now input).1 id =
         .ok (ContactRepository.scanContact (ContactRepository.insertRow id now input))
     | .error _ => (ContactRepository.Create db id now input).1 = db) := by
  unfold ContactRepository.Create
  by_cases hid : (db.rows.any (fun r => r.id = id)) = true
  · simp only [hid, if_true]
  · by_cases hem : (db.rows.any (fun r => r.email = input.Email)) = true
    · simp only [hid, hem, if_true, if_false]
      trivial
    · simp only [hid, hem, if_false]
      refine ⟨rfl, ?_⟩
      have hnone : db.rows.find? (fun r => decide (r.id = id)) = none := by
        rw [List.find?_eq_none]
        intro r hr hrid
        apply hid
        rw [List.any_eq_true]
        exact ⟨r, hr, hrid⟩
      have hrow : (ContactRepository.insertRow id now input).id = id := rfl
      unfold ContactRepository.GetByID
      simp [List.find?_append, hnone, hrow]

/-- C5, as stated, fails: for an input whose address is present with all five
sub-fields nil, the row `Create` writes is decoded to a contact without address. -/
theorem empty_address_not_restored :
    (ContactRepository.scanContact
        (ContactRepository.insertRow "id0" 0 emptyAddressInput)).Address = none ∧
      emptyAddressInput.Address =
        some { Street := none, City := none, State := none, PostalCode := none,
               Country := none } ∧
      ContactRepository.GetByID
          (ContactRepository.Create ⟨[]⟩ "id0" 0 emptyAddressInput).1 "id0" =
        .ok (ContactRepository.scanContact
          (ContactRepository.insertRow "id0" 0 emptyAddressInput)) := by
  refine ⟨?_, rfl, ?_⟩
  · rw [scanContact_eq]
    rfl
  · rfl

/-- C5, amended: for every input whose strings are valid UTF-8, decoding (as
`GetByID` does) the row `Create` writes yields a contact whose firstName,
lastName, email, phoneNumber, company, jobTitle, notes and tags are exactly
those of the input (empty tags come back as an empty sequence); an absent
address is stored as five null sub-columns and decoded as absent; a present
address with at least one sub-field set comes back present with the same five
sub-fields, and a present address with no sub-field set comes back absent.
After a successful `Create`, `GetByID` of the new id decodes that row.  The
strings of the embedding are the valid UTF-8 strings; a tag with other bytes is
outside the statement, the encoder replaces such bytes by U+FFFD. -/
theorem create_decode_round_trip (db : DB) (id : String) (now : Int)
    (input : ContactInput) :
    (ContactRepository.scanContact (ContactRepository.insertRow id now input)).FirstName
        = input.FirstName ∧
      (ContactRepository.scanContact (ContactRepository.insertRow id now input)).LastName
        = input.LastName ∧
      (ContactRepository.scanContact (ContactRepository.insertRow id now input)).Email
        = input.Email ∧
      (ContactRepository.scanContact (ContactRepository.insertRow id now input)).PhoneNumber
        = input.PhoneNumber ∧
      (ContactRepository.scanContact (ContactRepository.insertRow id now input)).Company
        = input.Company ∧
      (ContactRepository.scanContact (ContactRepository.insertRow id now input)).JobTitle
        = input.JobTitle ∧
      (ContactRepository.scanContact (ContactRepository.insertRow id now input)).Notes
        = input.Notes ∧
      (ContactRepository.scanContact (ContactRepository.insertRow id now input)).Tags
        = input.Tags ∧
      (ContactRepository.scanContact
          (ContactRepository.insertRow id now { input with Tags := some [] })).Tags
        = some [] ∧
      (ContactRepository.scanContact (ContactRepository.insertRow id now input)).Address
        = (match input.Address with
           | none => none
           | some a =>
             if a = { Street := none, City := none, State := none, PostalCode := none,
                      Country := none }
             then none else some a) ∧
      ((ContactRepository.insertRow id now { input with Address := none }).address_street
          = none ∧
        (ContactRepository.insertRow id now { input with Address := none }).address_city
          = none ∧
        (ContactRepository.insertRow id now { input with Address := none }).address_state
          = none ∧
        (ContactRepository.insertRow id now
            { input with Address := none }).address_postal_code = none ∧
        (ContactRepository.insertRow id now { input with Address := none }).address_country
          = none) ∧
      (match (ContactRepository.Create db id now input).2 with
       | .ok c =>
         c = ContactRepository.newContact id now input ∧
         ContactRepository.GetByID (ContactRepository.Create db id now input).1 id =
           .ok (ContactRepository.scanContact (ContactRepository.insertRow id now input))
       | .error _ => (ContactRepository.Create db id now input).1 = db) := by
  have htags : ∀ i : ContactInput,
      (ContactRepository.scanContact (ContactRepository.insertRow id now i)).Tags
        = i.Tags := by
    intro i
    rw [scanContact_eq]
    have hrow : (ContactRepository.insertRow id now i).tags = marshalTags i.Tags := rfl
    simp only [hrow, if_pos (marshalTags_ne_empty i.Tags), unmarshalTags_marshalTags]
  refine ⟨?_, ?_, ?_, ?_, ?_, ?_, ?_, htags input, htags _, ?_,
    ⟨rfl, rfl, rfl, rfl, rfl⟩, getByID_after_create db id now input⟩
  any_goals (rw [scanContact_eq]; rfl)
  rw [scanContact_eq]
  cases ha : input.Address with
  | none => simp [ContactRepository.insertRow, ha]
  | some a =>
    obtain ⟨st, ci, sa, po, co⟩ := a
    cases st <;> cases ci <;> cases sa <;> cases po <;> cases co <;>
      simp [ContactRepository.insertRow, ha]

/-! ## Tag filter -/

theorem toLower_ascii_facts :
    ∀ n, n < 128 →
      (((Char.ofNat n).toLower = '"' → Char.ofNat n = '"') ∧
       ((Char.ofNat n).toLower = '\\' → Char.ofNat n = '\\') ∧
       ((Char.ofNat n).toLower = ',' → Char.ofNat n = ',')) := by
  decide

theorem toLower_of_not_ascii (c : Char) (h : ¬ c.toNat < 128) : c.toLower = c := by
  unfold Char.toLower
  simp only []
  rw [if_neg (by omega)]

/-- Only the quote, the backslash and the comma fold to themselves. -/
theorem toLower_eq_special (c : Char) :
    (c.toLower = '"' → c = '"') ∧ (c.toLower = '\\' → c = '\\') ∧
      (c.toLower = ',' → c = ',') := by
  by_cases h : c.toNat < 128
  · have h' := toLower_ascii_facts c.toNat h
    rwa [Char.ofNat_toNat] at h'
  · rw [toLower_of_not_ascii c h]
    exact ⟨id, id, id⟩

theorem likeStar_split (f : List Char → Bool) (text : List Char)
    (h : likeStar f text = true) : ∃ pre suf, text = pre ++ suf ∧ f suf = true := by
  induction text with
  | nil => exact ⟨[], [], rfl, by simpa [likeStar] using h⟩
  | cons c t ih =>
    simp only [likeStar, Bool.or_eq_true] at h
    rcases h with h | h
    · exact ⟨[], c :: t, rfl, h⟩
    · obtain ⟨pre, suf, hs, hf⟩ := ih h
      exact ⟨c :: pre, suf, by simp [hs], hf⟩

theorem cString_eq_self (l : List Char) (h : Char.ofNat 0 ∉ l) : cString l = l := by
  induction l with
  | nil => rfl
  | cons c cs ih =>
    simp only [List.mem_cons, not_or] at h
    have hc : ¬ c = Char.ofNat 0 := fun hc => h.1 hc.symm
    simp only [cString, if_neg hc, ih h.2]

theorem cString_append_rest (l : List Char) : ∃ rest, l = cString l ++ rest := by
  induction l with
  | nil => exact ⟨[], rfl⟩
  | cons c cs ih =>
    by_cases hc : c = Char.ofNat 0
    · exact ⟨c :: cs, by simp [cString, hc]⟩
    · obtain ⟨rest, hrest⟩ := ih
      exact ⟨rest, by simp only [cString, if_neg hc, List.cons_append, ← hrest]⟩

/-- A pattern character other than U+FFFD, U+FFFE and U+FFFF matches only the
text characters equal to it up to letter case. -/
theorem likeCharEq_toLower (p c : Char) (h1 : p ≠ Char.ofNat 0xFFFD)
    (h2 : p ≠ Char.ofNat 0xFFFE) (h3 : p ≠ Char.ofNat 0xFFFF)
    (h : likeCharEq p c = true) : p.toLower = c.toLower := by
  unfold likeCharEq at h
  simp only [Bool.or_eq_true, Bool.and_eq_true, decide_eq_true_eq] at h
  rcases h with h | ⟨⟨h, _⟩, _⟩
  · have hp : sqliteRead p = p := by
      unfold sqliteRead
      rw [if_neg (by simp [h2, h3])]
    rw [hp] at h
    by_cases hc : c = Char.ofNat 0xFFFE ∨ c = Char.ofNat 0xFFFF
    · have hr : sqliteRead c = Char.ofNat 0xFFFD := by
        unfold sqliteRead
        rw [if_pos hc]
      exact absurd (h.trans hr) h1
    · have hr : sqliteRead c = c := by
        unfold sqliteRead
        rw [if_neg hc]
      rw [h, hr]
  · exact h

/-- A pattern start without wildcards matches a start of the text of the same
characters up to letter case. -/
theorem likeChars_literal (q : List Char)
    (hq : ∀ c ∈ q, c ≠ '%' ∧ c ≠ '_' ∧ c ≠ Char.ofNat 0xFFFD ∧ c ≠ Char.ofNat 0xFFFE ∧
      c ≠ Char.ofNat 0xFFFF)
    (rest : List Char) :
    ∀ text, likeChars (q ++ rest) text = true →
      ∃ mid post, text = mid ++ post ∧ mid.map Char.toLower = q.map Char.toLower ∧
        likeChars rest post = true := by
  induction q with
  | nil =>
    intro text h
    exact ⟨[], text, rfl, rfl, h⟩
  | cons p ps ih =>
    intro text h
    have hp := hq p (List.mem_cons_self _ _)
    cases text with
    | nil => simp [likeChars, hp.1] at h
    | cons c t =>
      simp only [List.cons_append, likeChars, if_neg hp.1, Bool.and_eq_true,
        Bool.or_eq_true, decide_eq_true_eq] at h
      obtain ⟨hc, hrest⟩ := h
      have hc' : p.toLower = c.toLower := by
        rcases hc with hc | hc
        · exact absurd hc hp.2.1
        · exact likeCharEq_toLower p c hp.2.2.1 hp.2.2.2.1 hp.2.2.2.2 hc
      obtain ⟨mid, post, ht, hm, hr⟩ :=
        ih (fun c hc => hq c (List.mem_cons_of_mem _ hc)) t hrest
      exact ⟨c :: mid, post, by simp [ht], by simp [hm, hc'], hr⟩

/-- A match of the tag predicate locates, in the stored text, a quote, then
characters equal to the filter up to letter case, then a quote. -/
theorem tagPredicate_occurrence (t col : String)
    (hwild : ∀ c ∈ t.toList, c ≠ '%' ∧ c ≠ '_' ∧ c ≠ '"' ∧ c ≠ '\\' ∧ c ≠ Char.ofNat 0 ∧
      c ≠ Char.ofNat 0xFFFD ∧ c ≠ Char.ofNat 0xFFFE ∧ c ≠ Char.ofNat 0xFFFF)
    (h : tagPredicate t col = true) :
    ∃ pre m post, col.toList = pre ++ '"' :: (m ++ '"' :: post) ∧
      m.map Char.toLower = t.toList.map Char.toLower := by
  have hp : ("%\"" ++ t ++ "\"%").toList = '%' :: (('"' :: (t.toList ++ ['"'])) ++ ['%']) := by
    simp [String.toList]
  have hq : ∀ c ∈ '"' :: (t.toList ++ ['"']),
      c ≠ '%' ∧ c ≠ '_' ∧ c ≠ Char.ofNat 0xFFFD ∧ c ≠ Char.ofNat 0xFFFE ∧
        c ≠ Char.ofNat 0xFFFF := by
    intro c hc
    simp only [List.mem_cons, List.mem_append, List.mem_singleton, List.not_mem_nil,
      or_false] at hc
    rcases hc with hc | hc | hc
    · subst hc
      decide
    · have hw := hwild c hc
      exact ⟨hw.1, hw.2.1, hw.2.2.2.2.2.1, hw.2.2.2.2.2.2.1, hw.2.2.2.2.2.2.2⟩
    · subst hc
      decide
  have hnul : Char.ofNat 0 ∉ '%' :: (('"' :: (t.toList ++ ['"'])) ++ ['%']) := by
    intro hmem
    simp only [List.cons_append, List.mem_cons, List.mem_append, List.mem_singleton,
      List.not_mem_nil, or_false] at hmem
    rcases hmem with hmem | hmem | ⟨hmem | hmem⟩ | hmem
    · exact absurd hmem (by decide)
    · exact absurd hmem (by decide)
    · exact (hwild _ hmem).2.2.2.2.1 rfl
    · exact absurd hmem (by decide)
    · exact absurd hmem (by decide)
  unfold tagPredicate sqlLike at h
  by_cases hsz : ("%\"" ++ t ++ "\"%").utf8ByteSize > maxLikePatternLength
  · rw [if_pos hsz] at h
    exact absurd h (by decide)
  rw [if_neg hsz, hp, cString_eq_self _ hnul] at h
  have h' : likeStar (likeChars (('"' :: (t.toList ++ ['"'])) ++ ['%']))
      (cString col.toList) = true := by
    simpa [likeChars] using h
  obtain ⟨pre, suf, hcol, hsuf⟩ := likeStar_split _ _ h'
  obtain ⟨mid, post, hsplit, hmid, -⟩ := likeChars_literal _ hq ['%'] suf hsuf
  rw [List.map_cons, List.map_eq_cons_iff] at hmid
  obtain ⟨a, mid', rfl, ha, hmid'⟩ := hmid
  rw [List.map_append, List.map_eq_append_iff] at hmid'
  obtain ⟨m, l2, rfl, hm, hl2⟩ := hmid'
  rw [List.map_singleton, List.map_eq_cons_iff] at hl2
  obtain ⟨b, l3, rfl, hb, hl3⟩ := hl2
  rw [List.map_eq_nil_iff] at hl3
  subst hl3
  have ha' : a = '"' := (toLower_eq_special a).1 ha
  have hb' : b = '"' := (toLower_eq_special b).1 hb
  subst ha' hb'
  obtain ⟨rest, hrest⟩ := cString_append_rest col.toList
  exact ⟨pre, m, post ++ rest, by rw [hrest, hcol, hsplit]; simp, hm⟩

theorem occ_cons (m W : List Char) (c : Char)
    (h : ∃ pre post, c :: W = pre ++ '"' :: (m ++ '"' :: post)) :
    (c = '"' ∧ ∃ post, W = m ++ '"' :: post) ∨
      ∃ pre post, W = pre ++ '"' :: (m ++ '"' :: post) := by
  obtain ⟨pre, post, h⟩ := h
  cases pre with
  | nil =>
    simp only [List.nil_append, List.cons.injEq] at h
    exact Or.inl ⟨h.1, post, h.2⟩
  | cons p pre' =>
    simp only [List.cons_append, List.cons.injEq] at h
    exact Or.inr ⟨pre', post, h.2⟩

theorem occ_has_quote (m W : List Char)
    (h : ∃ pre post, W = pre ++ '"' :: (m ++ '"' :: post)) : '"' ∈ W := by
  obtain ⟨pre, post, rfl⟩ := h
  simp

/-- The text up to the first quote is determined. -/
theorem first_quote_unique (a : List Char) :
    ∀ (b x y : List Char), '"' ∉ a → '"' ∉ b → a ++ '"' :: x = b ++ '"' :: y →
      a = b ∧ x = y := by
  induction a with
  | nil =>
    intro b x y _ hb h
    cases b with
    | nil => simpa using h
    | cons c b' =>
      simp only [List.nil_append, List.cons_append, List.cons.injEq] at h
      exact absurd (List.mem_cons.mpr (Or.inl h.1)) hb
  | cons c a' ih =>
    intro b x y ha hb h
    cases b with
    | nil =>
      simp only [List.nil_append, List.cons_append, List.cons.injEq] at h
      exact absurd (by simp [h.1]) ha
    | cons d b' =>
      simp only [List.cons_append, List.cons.injEq] at h
      obtain ⟨hcd, hrest⟩ := h
      obtain ⟨h1, h2⟩ := ih b' x y (fun hmem => ha (List.mem_cons_of_mem _ hmem))
        (fun hmem => hb (List.mem_cons_of_mem _ hmem)) hrest
      exact ⟨by rw [hcd, h1], h2⟩

theorem occ_skip_quotefree (e : List Char) (he : '"' ∉ e) (m R : List Char)
    (h : ∃ pre post, e ++ R = pre ++ '"' :: (m ++ '"' :: post)) :
    ∃ pre post, R = pre ++ '"' :: (m ++ '"' :: post) := by
  induction e with
  | nil => simpa using h
  | cons c e' ih =>
    rcases occ_cons m (e' ++ R) c h with ⟨hc, _⟩ | h'
    · exact absurd (by simp [hc]) he
    · exact ih (fun hmem => he (List.mem_cons_of_mem _ hmem)) h'

/-- An occurrence in a quoted element followed by `R` is the element itself, or
starts at its closing quote, or lies in `R`. -/
theorem occ_quoted (e m R : List Char) (he : '"' ∉ e) (hm : '"' ∉ m)
    (h : ∃ pre post, '"' :: (e ++ '"' :: R) = pre ++ '"' :: (m ++ '"' :: post)) :
    m = e ∨ (∃ post, R = m ++ '"' :: post) ∨
      ∃ pre post, R = pre ++ '"' :: (m ++ '"' :: post) := by
  rcases occ_cons _ _ _ h with ⟨_, post, hpost⟩ | h'
  · exact Or.inl (first_quote_unique e m R post he hm hpost).1.symm
  · have h'' := occ_skip_quotefree e he m ('"' :: R) h'
    rcases occ_cons _ _ _ h'' with ⟨_, hR⟩ | h3
    · exact Or.inr (Or.inl hR)
    · exact Or.inr (Or.inr h3)

theorem escapeChar_ascii_facts :
    ∀ n, n < 128 →
      ((Char.ofNat n ≠ '"' → '"' ∉ escapeChar (Char.ofNat n)) ∧
       ('\\' ∉ escapeChar (Char.ofNat n) → escapeChar (Char.ofNat n) = [Char.ofNat n])) := by
  decide

theorem escapeChar_facts (c : Char) :
    (c ≠ '"' → '"' ∉ escapeChar c) ∧ ('\\' ∉ escapeChar c → escapeChar c = [c]) := by
  by_cases h : c.toNat < 128
  · have h' := escapeChar_ascii_facts c.toNat h
    rwa [Char.ofNat_toNat] at h'
  · by_cases h1 : c = Char.ofNat 0x2028
    · subst h1
      decide
    · by_cases h2 : c = Char.ofNat 0x2029
      · subst h2
        decide
      · have hesc : escapeChar c = [c] := by
          unfold escapeChar
          rw [if_neg h, if_neg (by simp [h1, h2])]
        rw [hesc]
        exact ⟨fun hc => by simpa using hc.symm, fun _ => rfl⟩

theorem escapeChars_no_quote (cs : List Char) (h : '"' ∉ cs) : '"' ∉ escapeChars cs := by
  induction cs with
  | nil => simp [escapeChars]
  | cons c cs ih =>
    simp only [List.mem_cons, not_or] at h
    simp only [escapeChars, List.mem_append, not_or]
    exact ⟨(escapeChar_facts c).1 (fun hc => h.1 hc.symm), ih h.2⟩

/-- An encoding without a backslash is the string itself. -/
theorem escapeChars_eq_self (cs : List Char) (h : '\\' ∉ escapeChars cs) :
    escapeChars cs = cs := by
  induction cs with
  | nil => rfl
  | cons c cs ih =>
    simp only [escapeChars, List.mem_append, not_or] at h
    simp only [escapeChars, (escapeChar_facts c).2 h.1, ih h.2, List.singleton_append]

theorem encodeTail_not_after_quote (m : List Char) (hm : '"' ∉ m) (hcomma : m ≠ [','])
    (ss : List String) (post : List Char) (h : encodeTail ss = m ++ '"' :: post) :
    False := by
  cases ss with
  | nil =>
    have hq : '"' ∈ encodeTail [] := by
      rw [h]
      simp
    simp [encodeTail] at hq
  | cons s rest =>
    simp only [encodeTail, quoteChars, List.cons_append] at h
    cases m with
    | nil =>
      simp only [List.nil_append, List.cons.injEq] at h
      exact absurd h.1 (by decide)
    | cons c m' =>
      simp only [List.cons_append, List.cons.injEq] at h
      cases m' with
      | nil => exact hcomma (by rw [h.1])
      | cons d m'' =>
        simp only [List.cons_append, List.cons.injEq] at h
        exact hm (List.mem_cons.mpr (Or.inr (List.mem_cons.mpr (Or.inl h.2.1))))

theorem occ_encodeTail (m : List Char) (hm : '"' ∉ m) (hcomma : m ≠ [',']) :
    ∀ ss : List String, (∀ s ∈ ss, '"' ∉ s.toList) →
      (∃ pre post, encodeTail ss = pre ++ '"' :: (m ++ '"' :: post)) →
      ∃ s ∈ ss, m = escapeChars s.toList := by
  intro ss
  induction ss with
  | nil =>
    intro _ h
    have hq := occ_has_quote _ _ h
    simp [encodeTail] at hq
  | cons s rest ih =>
    intro hts h
    have henc : encodeTail (s :: rest) =
        ',' :: '"' :: (escapeChars s.toList ++ '"' :: encodeTail rest) := by
      simp [encodeTail, quoteChars]
    rw [henc] at h
    rcases occ_cons _ _ _ h with ⟨hc, _⟩ | h'
    · exact absurd hc (by decide)
    · have he : '"' ∉ escapeChars s.toList :=
        escapeChars_no_quote _ (hts s (List.mem_cons_self _ _))
      rcases occ_quoted _ _ _ he hm h' with h1 | ⟨post, h2⟩ | h3
      · exact ⟨s, List.mem_cons_self _ _, h1⟩
      · exact (encodeTail_not_after_quote m hm hcomma rest post h2).elim
      · obtain ⟨s', hs', hm'⟩ := ih (fun x hx => hts x (List.mem_cons_of_mem _ hx)) h3
        exact ⟨s', List.mem_cons_of_mem _ hs', hm'⟩

theorem occ_encodeArray (m : List Char) (hm : '"' ∉ m) (hcomma : m ≠ [','])
    (ts : List String) (hts : ∀ s ∈ ts, '"' ∉ s.toList)
    (h : ∃ pre post, encodeArray ts = pre ++ '"' :: (m ++ '"' :: post)) :
    ∃ s ∈ ts, m = escapeChars s.toList := by
  cases ts with
  | nil =>
    have hq := occ_has_quote _ _ h
    simp [encodeArray] at hq
  | cons s rest =>
    have henc : encodeArray (s :: rest) = '[' :: (quoteChars s ++ encodeTail rest) := rfl
    rw [henc] at h
    rcases occ_cons _ _ _ h with ⟨hc, _⟩ | ⟨pre, post, h'⟩
    · exact absurd hc (by decide)
    · apply occ_encodeTail m hm hcomma (s :: rest) hts
      exact ⟨',' :: pre, post, by simp [encodeTail, h']⟩

theorem no_special_of_toLower_eq (m t : List Char)
    (h : m.map Char.toLower = t.map Char.toLower) (ht : ∀ c ∈ t, c ≠ '"' ∧ c ≠ '\\') :
    '"' ∉ m ∧ '\\' ∉ m := by
  constructor
  · intro hmem
    have h1 : ('"' : Char).toLower ∈ t.map Char.toLower := by
      rw [← h]
      exact List.mem_map_of_mem _ hmem
    obtain ⟨c, hc, hceq⟩ := List.mem_map.mp h1
    exact (ht c hc).1 ((toLower_eq_special c).1 hceq)
  · intro hmem
    have h1 : ('\\' : Char).toLower ∈ t.map Char.toLower := by
      rw [← h]
      exact List.mem_map_of_mem _ hmem
    obtain ⟨c, hc, hceq⟩ := List.mem_map.mp h1
    exact (ht c hc).2 ((toLower_eq_special c).2.1 hceq)

/-- The model of `LIKE` at the edges of its definition: a NUL ends the pattern,
so the filter of a bracket and a NUL matches every contact with a tag; a NUL
ends the text; U+FFFE in the text is read as U+FFFD. -/
theorem sqlLike_edge_cases :
    tagPredicate "]\x00" (marshalTags (some ["cat"])) = true ∧
      sqlLike (String.mk ['[', '"', Char.ofNat 0xFFFE, '"', ']'])
        (String.mk ['%', '"', Char.ofNat 0xFFFD, '"', '%']) = true ∧
      sqlLike "abc\x00def" "%def%" = false := by
  decide

/-- The decoder on an array with an element that is not a string: the element
stays empty; a text with a syntax error leaves the slice nil. -/
theorem unmarshalTags_edge_cases :
    unmarshalTags "[\"a\",1]" = some ["a", ""] ∧
      unmarshalTags "[\"a\", [1, \x7b\"k\": null\x7d], \"b\"]" = some ["a", "", "b"] ∧
      unmarshalTags "[\"a\",]" = none ∧
      unmarshalTags "[\"a\",01]" = none ∧
      unmarshalTags "\"a\"" = none := by
  decide

/-- C8, as stated, fails: the filter `,` matches the stored tags of a contact
tagged `a` and `b`, of which `,` is not an element; `List` returns the contact. -/
theorem comma_filter_false_positive :
    tagPredicate "," (marshalTags (some ["a", "b"])) = true ∧
      "," ∉ ["a", "b"] ∧ "," ≠ "" ∧
      (twoTagsDB.rows.map (fun r => r.tags)) = [marshalTags (some ["a", "b"])] ∧
      (ContactRepository.List twoTagsDB ⟨1, 20, "", ","⟩).2 = 1 := by
  decide

/-- C8, amended: for every tag filter (a valid UTF-8 string) that holds none
of the characters `%`, `_`, `"`, `\`, NUL, U+FFFD, U+FFFE and U+FFFF and is not
the single comma, and every stored tags value written for tags (valid UTF-8
strings) that hold no `"`, the tag predicate of `List` matches only if some
element of the tags equals the filter up to ASCII letter case; the filter `a`
does not match a contact tagged `cat`. -/
theorem tag_filter_precision (t : String) (tags : Option (List String))
    (hwild : ∀ c ∈ t.toList, c ≠ '%' ∧ c ≠ '_' ∧ c ≠ '"' ∧ c ≠ '\\' ∧ c ≠ Char.ofNat 0 ∧
      c ≠ Char.ofNat 0xFFFD ∧ c ≠ Char.ofNat 0xFFFE ∧ c ≠ Char.ofNat 0xFFFF)
    (hcomma : t ≠ ",")
    (htags : ∀ ts, tags = some ts → ∀ s ∈ ts, '"' ∉ s.toList)
    (hmatch : tagPredicate t (marshalTags tags) = true) :
    (∃ ts, tags = some ts ∧
        ∃ s ∈ ts, s.toList.map Char.toLower = t.toList.map Char.toLower) ∧
      tagPredicate "a" (marshalTags (some ["cat"])) = false := by
  refine ⟨?_, by decide⟩
  obtain ⟨pre, m, post, hcol, hm⟩ := tagPredicate_occurrence t _ hwild hmatch
  obtain ⟨hmq, hmb⟩ := no_special_of_toLower_eq m t.toList hm
    (fun c hc => ⟨(hwild c hc).2.2.1, (hwild c hc).2.2.2.1⟩)
  have hmc : m ≠ [','] := by
    intro hmeq
    rw [hmeq, List.map_singleton, eq_comm, List.map_eq_cons_iff] at hm
    obtain ⟨c, l, htl, hc, hl⟩ := hm
    rw [List.map_eq_nil_iff] at hl
    have hc' : c = ',' := (toLower_eq_special c).2.2 hc
    apply hcomma
    apply String.ext
    rw [show t.data = t.toList from rfl, htl, hl, hc']
  cases tags with
  | none =>
    have hq : '"' ∈ (marshalTags none).toList := by
      rw [hcol]
      simp
    exact absurd hq (by decide)
  | some ts =>
    have henc : (marshalTags (some ts)).toList = encodeArray ts := rfl
    rw [henc] at hcol
    obtain ⟨s, hs, hms⟩ := occ_encodeArray m hmq hmc ts (htags ts rfl) ⟨pre, post, hcol⟩
    refine ⟨ts, rfl, s, hs, ?_⟩
    rw [hms] at hmb
    rw [← hm, hms, escapeChars_eq_self _ hmb]

/-- Witness of `tag_filter_precision`: the filter `cat` on the tags `dog`, `Cat`. -/
theorem tag_filter_precision_witness :
    (∃ ts, some ["dog", "Cat"] = some ts ∧
        ∃ s ∈ ts, s.toList.map Char.toLower = "cat".toList.map Char.toLower) ∧
      tagPredicate "a" (marshalTags (some ["cat"])) = false :=
  tag_filter_precision "cat" (some ["dog", "Cat"]) (by decide) (by decide)
    (by
      intro ts h
      cases h
      decide)
    (by decide)

end ContactManager
